import Mathlib

/-!
Verification development for the fantasy-football power-rankings engine
(`power_rankings_generator.py`).

The engine is embedded shallowly:

* Python dicts become association lists `List (Nat × β)` keyed by team id
  (or week number), preserving Python's insertion order.
* Python floats become exact rationals `ℚ`; the one genuinely irrational
  quantity, the sample standard deviation used by `calculate_consistency`,
  is treated in two ways: the executable pipeline takes the standard
  deviation function as an explicit parameter `stdevFn : List ℚ → ℚ`
  (every theorem about the pipeline is universally quantified over it),
  and a separate real-valued rendering `calculate_consistency_scoresR`
  uses the exact `Real.sqrt` of the sample variance.
* Fallible operations (Python `KeyError` from `d[k]` indexing, `ValueError`
  from `max` of an empty sequence) are modelled by `Option`: `none` means
  the Python code raises.
-/

/-- One side (`home` or `away`) of a matchup: `{"teamId": ..., "totalPoints": ...}`. -/
structure TeamSide where
  teamId : Nat
  totalPoints : ℚ
  deriving DecidableEq

/-- A matchup dictionary from the schedule.  `winner` is `none` when the key is
absent (or Python `None`); `home`/`away` are `none` when the key is absent. -/
structure Matchup where
  matchupPeriodId : Nat
  winner : Option String := none
  home : Option TeamSide := none
  away : Option TeamSide := none
  deriving DecidableEq

/-- Models `team["record"]["overall"]` win/loss/tie counts. -/
structure TeamRecord where
  wins : Nat
  losses : Nat
  ties : Nat
  deriving DecidableEq

/-- A team dictionary: id, display name and season record. -/
structure Team where
  id : Nat
  name : String
  record : TeamRecord
  deriving DecidableEq

/-- Python dict indexing `d[k]`: the binding of the first occurrence of the key,
`none` when the key is absent (a `KeyError` in Python). -/
def dlookup {β : Type} (m : List (Nat × β)) (k : Nat) : Option β :=
  match m with
  | [] => none
  | (k', v) :: rest => if k' = k then some v else dlookup rest k

/-- Python `d[k] = v` on an insertion-ordered dict: overwrite in place if the
key exists, else append a new binding at the end. -/
def dset {β : Type} (m : List (Nat × β)) (k : Nat) (v : β) : List (Nat × β) :=
  match m with
  | [] => [(k, v)]
  | (k', v') :: rest => if k' = k then (k', v) :: rest else (k', v') :: dset rest k v

/-- Models `defaultdict(list)` update `d[k].append(x)`: append to the existing list in
place, or create the key with a one-element list at the end. -/
def dappend {β : Type} (m : List (Nat × List β)) (k : Nat) (x : β) : List (Nat × List β) :=
  match m with
  | [] => [(k, [x])]
  | (k', l) :: rest => if k' = k then (k', l ++ [x]) :: rest else (k', l) :: dappend rest k x

/-- Models `defaultdict(int)` update `d[k] += x`: add to the existing value in place,
or create the key (default 0) at the end. -/
def dadd (m : List (Nat × Int)) (k : Nat) (x : Int) : List (Nat × Int) :=
  match m with
  | [] => [(k, x)]
  | (k', v) :: rest => if k' = k then (k', v + x) :: rest else (k', v) :: dadd rest k x

/-- The filter of `get_current_week`: Python truthiness of `m.get("winner")`
(present and non-empty) together with `m["winner"] != "UNDECIDED"`. -/
def decidedWinner (m : Matchup) : Bool :=
  match m.winner with
  | none => false
  | some s => decide (s ≠ "") && decide (s ≠ "UNDECIDED")

/-- Python `max` over a list of ints: `none` on the empty list (a `ValueError`). -/
def listMax : List Nat → Option Nat
  | [] => none
  | x :: xs => some (xs.foldl Nat.max x)

/-- Models `get_current_week(schedule)`: the highest `matchupPeriodId` among matchups
with a truthy, non-"UNDECIDED" winner; fails on an empty eligible set. -/
def get_current_week (schedule : List Matchup) : Option Nat :=
  listMax ((schedule.filter decidedWinner).map (fun m => m.matchupPeriodId))

/-- The eligibility filter exactly as the claim words it: the `winner` field
is present (even if empty) and is not the sentinel `"UNDECIDED"`.  This is the
claim-side reading of the source's Python-truthiness test `m.get("winner")`;
the two differ on a present-but-empty winner string. -/
def presentDecidedWinner (m : Matchup) : Bool :=
  m.winner.isSome && decide (m.winner ≠ some "UNDECIDED")

/-- The claim-side variant of `get_current_week`, built on
`presentDecidedWinner` instead of the source's truthiness test. -/
def get_current_week_spec (schedule : List Matchup) : Option Nat :=
  listMax ((schedule.filter presentDecidedWinner).map (fun m => m.matchupPeriodId))

/-- The per-team info dictionary built by `get_team_info`. -/
structure TeamInfo where
  team_name : String
  record_str : String
  record_score : ℚ
  games_played : Nat
  deriving DecidableEq

/-- The f-string `f"{wins}-{losses}-{ties}"`. -/
def recordStr (w l t : Nat) : String :=
  toString w ++ "-" ++ toString l ++ "-" ++ toString t

/-- The loop body of `get_team_info` for a single team: read win/loss/tie
counts, compute `games_played` and
`record_score = (wins + 0.5 * ties) / games_played if games_played else 0`. -/
def team_info_entry (team : Team) : TeamInfo :=
  let w : Nat := team.record.wins
  let l : Nat := team.record.losses
  let t : Nat := team.record.ties
  let gp : Nat := w + l + t
  let rs : ℚ := if gp = 0 then 0 else ((w : ℚ) + 0.5 * (t : ℚ)) / (gp : ℚ)
  ⟨team.name, recordStr w l t, rs, gp⟩

/-- Models `get_team_info(teams)`: per-team name, record string, record score and
games played, keyed by team id. -/
def get_team_info (teams : List Team) : List (Nat × TeamInfo) :=
  teams.foldl (fun acc team => dset acc team.id (team_info_entry team)) []

/-- Models `calculate_team_scores(schedule)`: for every matchup having both a home and
an away side, append each side's `totalPoints` to that team's score history. -/
def calculate_team_scores (schedule : List Matchup) : List (Nat × List ℚ) :=
  schedule.foldl (fun acc m =>
    match m.home, m.away with
    | some h, some a => dappend (dappend acc h.teamId h.totalPoints) a.teamId a.totalPoints
    | _, _ => acc) []

/-- Models `sorted(items, key=lambda x: x[1], reverse=...)`: Python's stable sort on
the value component, descending when `reverse` is true.  A stable sort for a
total preorder is extensionally unique, so any stable algorithm renders
CPython's timsort faithfully; insertion sort is used because it is stable and
structurally recursive. -/
def sortByVal {α : Type} [LinearOrder α] (reverse : Bool) (l : List (Nat × α)) :
    List (Nat × α) :=
  if reverse then l.insertionSort (fun a b => b.2 ≤ a.2)
  else l.insertionSort (fun a b => a.2 ≤ b.2)

/-- The rank-assignment walk of `rank_stat`: `idx` is the 1-based position,
`prevVal`/`prevRank` carry the previously seen value and its rank. -/
def rankWalk {α : Type} [DecidableEq α] :
    List (Nat × α) → Option α → Nat → Nat → List (Nat × Nat)
  | [], _, _, _ => []
  | (tid, v) :: rest, prevVal, prevRank, idx =>
    if prevVal = some v then
      (tid, prevRank) :: rankWalk rest prevVal prevRank (idx + 1)
    else
      (tid, idx) :: rankWalk rest (some v) idx (idx + 1)

/-- Models `rank_stat(stat_dict, reverse=True)`: competition ranks (1 = best) over an
association list of statistics. -/
def rank_stat {α : Type} [LinearOrder α] (stat_dict : List (Nat × α))
    (reverse : Bool := true) : List (Nat × Nat) :=
  rankWalk (sortByVal reverse stat_dict) none 0 1

/-- Models `calculate_ppg(team_scores)`: mean score per team (0 for an empty history)
plus the PPG ranks. -/
def calculate_ppg (team_scores : List (Nat × List ℚ)) :
    List (Nat × ℚ) × List (Nat × Nat) :=
  let team_ppg := team_scores.map (fun p =>
    (p.1, if p.2.isEmpty then 0 else p.2.sum / (p.2.length : ℚ)))
  (team_ppg, rank_stat team_ppg)

/-- A Python loop that builds a list and raises as soon as one step raises:
`some` of the collected results when every step succeeds, else `none`. -/
def traverseOption {α β : Type} (f : α → Option β) : List α → Option (List β)
  | [] => some []
  | a :: l =>
    match f a, traverseOption f l with
    | some b, some bs => some (b :: bs)
    | _, _ => none

/-- The comprehension `{tid: statistics.stdev(scores) if len(scores) > 1 else 0
for tid, scores in team_scores.items()}`, with the standard-deviation routine
abstracted as `stdevFn`. -/
def team_stdev_map (stdevFn : List ℚ → ℚ) (team_scores : List (Nat × List ℚ)) :
    List (Nat × ℚ) :=
  team_scores.map (fun p => (p.1, if 1 < p.2.length then stdevFn p.2 else 0))

/-- Models `sum(team_ppg.values()) / len(team_ppg) if team_ppg else 0`. -/
def league_avg_ppg (team_ppg : List (Nat × ℚ)) : ℚ :=
  if team_ppg.isEmpty then 0
  else (team_ppg.map Prod.snd).sum / (team_ppg.length : ℚ)

/-- One entry of the consistency comprehension:
`((team_ppg[tid] - 3 * team_stdev[tid]) / (0.75 * league_avg_ppg)) if
league_avg_ppg else 0`.  When the league average is 0 the ternary
short-circuits, so `team_stdev[tid]` is not even looked up. -/
def consistency_entry (team_stdev : List (Nat × ℚ)) (avg : ℚ) (p : Nat × ℚ) :
    Option (Nat × ℚ) :=
  if avg = 0 then some (p.1, (0 : ℚ))
  else (dlookup team_stdev p.1).map (fun sd => (p.1, (p.2 - 3 * sd) / (0.75 * avg)))

/-- Models `calculate_consistency(team_ppg, team_scores)` over `ℚ`, with the sample
standard deviation supplied as `stdevFn` (applied only to histories of length
at least 2, exactly as the source guards `statistics.stdev`).  The dict
indexing `team_stdev[tid]` can raise, hence the `Option`. -/
def calculate_consistency (stdevFn : List ℚ → ℚ) (team_ppg : List (Nat × ℚ))
    (team_scores : List (Nat × List ℚ)) :
    Option (List (Nat × ℚ) × List (Nat × Nat)) :=
  match traverseOption
      (consistency_entry (team_stdev_map stdevFn team_scores) (league_avg_ppg team_ppg))
      team_ppg with
  | some scores => some (scores, rank_stat scores)
  | none => none

/-- The grouping loop of `calculate_overall_wins_and_losses`: a
`defaultdict(list)` keyed by `matchupPeriodId`, each week holding the
`(teamId, totalPoints)` pairs of both sides of every scored matchup. -/
def weeklyMatchups (schedule : List Matchup) : List (Nat × List (Nat × ℚ)) :=
  schedule.foldl (fun acc m =>
    match m.home, m.away with
    | some h, some a =>
      dappend (dappend acc m.matchupPeriodId (h.teamId, h.totalPoints))
        m.matchupPeriodId (a.teamId, a.totalPoints)
    | _, _ => acc) []

/-- One week's body of the accumulation loop: sort that week's
`(teamId, totalPoints)` pairs by points descending; the entry at 0-based
position `i` is assigned `num_teams - 1 - i` wins and `i` losses. -/
def weekAssignments (num_teams : Nat) (matchups : List (Nat × ℚ)) :
    List (Nat × Int × Int) :=
  (sortByVal true matchups).enum.map (fun p =>
    (p.2.1, ((num_teams : Int) - 1 - (p.1 : Int), (p.1 : Int))))

/-- Models `calculate_overall_wins_and_losses(schedule, num_teams)`: accumulate each
week's assignments into the overall win/loss `defaultdict(int)`s and rank the
wins. -/
def calculate_overall_wins_and_losses (schedule : List Matchup) (num_teams : Nat) :
    List (Nat × Int) × List (Nat × Int) × List (Nat × Nat) :=
  let step := fun (acc : List (Nat × Int) × List (Nat × Int)) (wk : Nat × List (Nat × ℚ)) =>
    (weekAssignments num_teams wk.2).foldl
      (fun a asg => (dadd a.1 asg.1 asg.2.1, dadd a.2 asg.1 asg.2.2)) acc
  let acc := (weeklyMatchups schedule).foldl step ([], [])
  (acc.1, acc.2, rank_stat acc.1)

/-- The per-team statistics dictionary handed to `build_power_scores`. -/
structure Stats where
  ppg : List (Nat × ℚ)
  ppg_ranks : List (Nat × Nat)
  consistency_scores : List (Nat × ℚ)
  consistency_ranks : List (Nat × Nat)
  overall_wins : List (Nat × Int)
  overall_losses : List (Nat × Int)
  overall_ranks : List (Nat × Nat)
  ros_strength : List (Nat × ℚ)
  ros_ranks : List (Nat × Nat)

/-- The category-weight dictionary. -/
structure Weights where
  record : ℚ
  overall : ℚ
  consistency : ℚ
  ppg : ℚ
  ros : ℚ

/-- One output power-score record.  `power_rank` and `change` are attached
later by `rank_teams_by_score`. -/
structure PowerScore where
  team_id : Nat
  team_name : String
  record : String
  overall_wins : String
  consistency : Option Nat
  ppg : ℚ
  ros_strength : ℚ
  pr_score : ℚ
  power_rank : Nat := 0
  change : String := ""
  deriving DecidableEq

/-- Python `round(q, 2)` modelled on exact rationals. -/
def round2 (q : ℚ) : ℚ := ((round (q * 100) : ℤ) : ℚ) / 100

/-- The body of the `build_power_scores` loop for one `(tid, info)` pair.
Rank maps are indexed with `d[tid]` in the source, so a missing team id makes
the step fail; `overall_wins`/`overall_losses` are `defaultdict(int)` (0 for a
missing id); `consistency`, `ppg` and `ros_strength` use `.get` with defaults.
The consistency term short-circuits to 0 before week 3. -/
def build_power_entry (record_ranks : List (Nat × Nat)) (stats : Stats)
    (weights : Weights) (current_week : Nat) (p : Nat × TeamInfo) :
    Option PowerScore :=
  match dlookup record_ranks p.1, dlookup stats.overall_ranks p.1,
      (if 3 ≤ current_week then
        (dlookup stats.consistency_ranks p.1).map
          (fun r : Nat => (r : ℚ) * weights.consistency)
      else some 0),
      dlookup stats.ppg_ranks p.1, dlookup stats.ros_ranks p.1 with
  | some recr, some ovr, some consistency_val, some pr, some rosr =>
    some { team_id := p.1
           team_name := p.2.team_name
           record := p.2.record_str
           overall_wins :=
             toString ((dlookup stats.overall_wins p.1).getD 0) ++ "-" ++
               toString ((dlookup stats.overall_losses p.1).getD 0)
           consistency := dlookup stats.consistency_ranks p.1
           ppg := round2 ((dlookup stats.ppg p.1).getD 0)
           ros_strength := (dlookup stats.ros_strength p.1).getD 50
           pr_score := round2 ((recr : ℚ) * weights.record + (ovr : ℚ) * weights.overall
             + consistency_val + (pr : ℚ) * weights.ppg + (rosr : ℚ) * weights.ros) }
  | _, _, _, _, _ => none

/-- Models `build_power_scores(team_info, stats, weights, current_week)`: derive the
record ranks from `team_info` and run the per-team loop. -/
def build_power_scores (team_info : List (Nat × TeamInfo)) (stats : Stats)
    (weights : Weights) (current_week : Nat) : Option (List PowerScore) :=
  let record_ranks := rank_stat (team_info.map (fun p => (p.1, p.2.record_score)))
  traverseOption (build_power_entry record_ranks stats weights current_week) team_info

/-- The `change` placeholder string assigned to every row (the source file
stores an en dash in a mangled encoding; only its constancy matters). -/
def changePlaceholder : String := "–"

/-- Models `rank_teams_by_score(power_scores)`: stable sort by `pr_score` ascending,
then assign 1-based `power_rank` and the placeholder `change`. -/
def rank_teams_by_score (power_scores : List PowerScore) : List PowerScore :=
  let sorted_scores := power_scores.insertionSort (fun a b => a.pr_score ≤ b.pr_score)
  sorted_scores.enum.map (fun p =>
    { p.2 with power_rank := p.1 + 1, change := changePlaceholder })

/-- Models `record_weight = 1.2 * current_week if current_week < 3 else 3`. -/
def record_weight (current_week : Nat) : ℚ :=
  if current_week < 3 then 1.2 * (current_week : ℚ) else 3

/-- The weight dictionary built by `calculate_power_rankings`:
`{"record": record_weight, "overall": 1.0, "consistency": 1.0, "ppg": 1.0,
"ros": 1.2}`. -/
def pipelineWeights (current_week : Nat) : Weights :=
  { record := record_weight current_week
    overall := 1.0
    consistency := 1.0
    ppg := 1.0
    ros := 1.2 }

/-- The input league snapshot: `data["teams"]` and `data["schedule"]`. -/
structure LeagueData where
  teams : List Team
  schedule : List Matchup

/-- The default rest-of-season map `{team["id"]: 50 for team in teams}`. -/
def default_ros (teams : List Team) : List (Nat × ℚ) :=
  teams.foldl (fun acc t => dset acc t.id 50) []

/-- Models `calculate_power_rankings(data, ros_strength)`.  `max_week` models the
`MAX_WEEK` environment override (`None` or `"0"` mean no filtering, by Python
truthiness); `ros_strength or default` likewise treats an empty dict as
absent.  `stdevFn` is the sample-standard-deviation routine. -/
def calculate_power_rankings (stdevFn : List ℚ → ℚ) (data : LeagueData)
    (ros_strength : Option (List (Nat × ℚ)) := none)
    (max_week : Option Nat := none) : Option (List PowerScore) :=
  let schedule :=
    match max_week with
    | some w => if w = 0 then data.schedule
                else data.schedule.filter (fun m => m.matchupPeriodId ≤ w)
    | none => data.schedule
  let teams := data.teams
  let num_teams := teams.length
  let ros :=
    match ros_strength with
    | some l => if l.isEmpty then default_ros teams else l
    | none => default_ros teams
  match get_current_week schedule with
  | none => none
  | some current_week =>
    let team_info := get_team_info teams
    let team_scores := calculate_team_scores schedule
    let team_ppg := (calculate_ppg team_scores).1
    let ppg_ranks := (calculate_ppg team_scores).2
    match calculate_consistency stdevFn team_ppg team_scores with
    | none => none
    | some cst =>
      let owl := calculate_overall_wins_and_losses schedule num_teams
      let stats : Stats :=
        { ppg := team_ppg
          ppg_ranks := ppg_ranks
          consistency_scores := cst.1
          consistency_ranks := cst.2
          overall_wins := owl.1
          overall_losses := owl.2.1
          overall_ranks := owl.2.2
          ros_strength := ros
          ros_ranks := rank_stat ros }
      match build_power_scores team_info stats (pipelineWeights current_week)
          current_week with
      | none => none
      | some power_scores => some (rank_teams_by_score power_scores)

/-- The mean of a score history (used inside the sample variance). -/
def sampleMean (l : List ℚ) : ℚ := l.sum / (l.length : ℚ)

/-- The sample variance `(Σ (x - mean)^2) / (n - 1)` of a score history. -/
def sampleVariance (l : List ℚ) : ℚ :=
  (l.map (fun x => (x - sampleMean l) ^ 2)).sum / ((l.length : ℚ) - 1)

/-- Models `statistics.stdev`: the sample standard deviation, the square root of the
sample variance.  Real-valued, since the square root of a rational is
irrational in general. -/
noncomputable def sampleStdev (l : List ℚ) : ℝ :=
  Real.sqrt ((sampleVariance l : ℚ) : ℝ)

/-- The stdev comprehension of `calculate_consistency` with the exact
real-valued sample standard deviation in place of the abstracted `stdevFn`. -/
noncomputable def team_stdev_mapR (team_scores : List (Nat × List ℚ)) :
    List (Nat × ℝ) :=
  team_scores.map (fun p => (p.1, if 1 < p.2.length then sampleStdev p.2 else 0))

/-- One entry of the consistency comprehension over `ℝ` (same shape as
`consistency_entry`). -/
noncomputable def consistency_entryR (team_stdev : List (Nat × ℝ)) (avg : ℚ)
    (p : Nat × ℚ) : Option (Nat × ℝ) :=
  if avg = 0 then some (p.1, (0 : ℝ))
  else (dlookup team_stdev p.1).map (fun sd =>
    (p.1, (((p.2 : ℚ) : ℝ) - 3 * sd) / (0.75 * ((avg : ℚ) : ℝ))))

/-- The value map of `calculate_consistency` with the exact real-valued
sample standard deviation. -/
noncomputable def calculate_consistency_scoresR (team_ppg : List (Nat × ℚ))
    (team_scores : List (Nat × List ℚ)) : Option (List (Nat × ℝ)) :=
  traverseOption
    (consistency_entryR (team_stdev_mapR team_scores) (league_avg_ppg team_ppg))
    team_ppg

/-- The number of entries of a statistic list whose value strictly exceeds
`v`.  In a descending-sorted list, `1 + countGreater` is the 1-based position
of the first occurrence of value `v`. -/
def countGreater {α : Type} [LinearOrder α] (l : List (Nat × α)) (v : α) : Nat :=
  (l.filter (fun y => decide (v < y.2))).length

/-- Whether a matchup is a scored game (has both sides) involving team `tid`. -/
def scoresInMatchup (tid : Nat) (m : Matchup) : Bool :=
  match m.home, m.away with
  | some h, some a => decide (tid = h.teamId) || decide (tid = a.teamId)
  | _, _ => false

/-- Whether team `tid` appears on either side of some scored matchup. -/
def scoresIn (tid : Nat) (schedule : List Matchup) : Bool :=
  schedule.any (scoresInMatchup tid)

/-- The fields of a power-score record that `rank_teams_by_score` does not
overwrite (everything except `power_rank` and `change`). -/
def coreFields (r : PowerScore) :
    Nat × String × String × String × Option Nat × ℚ × ℚ × ℚ :=
  (r.team_id, r.team_name, r.record, r.overall_wins, r.consistency, r.ppg,
    r.ros_strength, r.pr_score)

/-! ### Dictionary lemmas -/

theorem dlookup_eq_none_iff {β : Type} (m : List (Nat × β)) (k : Nat) :
    dlookup m k = none ↔ k ∉ m.map Prod.fst := by
  induction m with
  | nil => simp [dlookup]
  | cons p rest ih =>
    obtain ⟨k', v⟩ := p
    by_cases h : k' = k
    · subst h; simp [dlookup]
    · simp [dlookup, h, ih, Ne.symm h]

theorem dlookup_isSome_iff {β : Type} (m : List (Nat × β)) (k : Nat) :
    (dlookup m k).isSome ↔ k ∈ m.map Prod.fst := by
  rw [Option.isSome_iff_ne_none, Ne, dlookup_eq_none_iff, not_not]

theorem mem_keys_dset {β : Type} (m : List (Nat × β)) (k a : Nat) (v : β) :
    a ∈ (dset m k v).map Prod.fst ↔ a = k ∨ a ∈ m.map Prod.fst := by
  induction m with
  | nil => simp [dset]
  | cons p rest ih =>
    obtain ⟨k', v'⟩ := p
    by_cases h : k' = k
    · subst h; simp [dset]
    · simp [dset, h, ih]; tauto

theorem mem_keys_dappend {β : Type} (m : List (Nat × List β)) (k a : Nat) (x : β) :
    a ∈ (dappend m k x).map Prod.fst ↔ a = k ∨ a ∈ m.map Prod.fst := by
  induction m with
  | nil => simp [dappend]
  | cons p rest ih =>
    obtain ⟨k', l⟩ := p
    by_cases h : k' = k
    · subst h; simp [dappend]
    · simp [dappend, h, ih]; tauto

theorem mem_keys_dadd (m : List (Nat × Int)) (k a : Nat) (x : Int) :
    a ∈ (dadd m k x).map Prod.fst ↔ a = k ∨ a ∈ m.map Prod.fst := by
  induction m with
  | nil => simp [dadd]
  | cons p rest ih =>
    obtain ⟨k', v⟩ := p
    by_cases h : k' = k
    · subst h; simp [dadd]
    · simp [dadd, h, ih]; tauto

theorem keys_map_val {β γ : Type} (f : Nat × β → γ) (m : List (Nat × β)) :
    (m.map (fun p => (p.1, f p))).map Prod.fst = m.map Prod.fst := by
  induction m with
  | nil => rfl
  | cons p rest ih => simp [ih]

/-! ### Sorting lemmas -/

theorem sortByVal_perm {α : Type} [LinearOrder α] (rev : Bool) (l : List (Nat × α)) :
    (sortByVal rev l).Perm l := by
  unfold sortByVal
  split <;> exact List.perm_insertionSort _ l

theorem sortByVal_sorted {α : Type} [LinearOrder α] (l : List (Nat × α)) :
    (sortByVal true l).Pairwise (fun a b => b.2 ≤ a.2) := by
  letI : IsTotal (Nat × α) (fun a b => b.2 ≤ a.2) := ⟨fun a b => le_total b.2 a.2⟩
  letI : IsTrans (Nat × α) (fun a b => b.2 ≤ a.2) := ⟨fun a b c hab hbc => hbc.trans hab⟩
  exact List.sorted_insertionSort (fun a b => b.2 ≤ a.2) l

/-! ### Rank-walk lemmas -/

theorem rankWalk_keys {α : Type} [DecidableEq α] (l : List (Nat × α)) :
    ∀ pv pr i, (rankWalk l pv pr i).map Prod.fst = l.map Prod.fst := by
  induction l with
  | nil => intro pv pr i; rfl
  | cons p rest ih =>
    intro pv pr i
    obtain ⟨tid, v⟩ := p
    by_cases h : pv = some v
    · simp [rankWalk, h, ih]
    · simp [rankWalk, h, ih]

theorem mem_keys_rank_stat {α : Type} [LinearOrder α] (m : List (Nat × α)) (a : Nat) :
    a ∈ (rank_stat m).map Prod.fst ↔ a ∈ m.map Prod.fst := by
  unfold rank_stat
  rw [rankWalk_keys]
  exact ((sortByVal_perm true m).map Prod.fst).mem_iff

theorem countGreater_perm {α : Type} [LinearOrder α] {l l' : List (Nat × α)}
    (h : l.Perm l') (v : α) : countGreater l v = countGreater l' v := by
  unfold countGreater
  exact (h.filter _).length_eq

theorem rankWalk_eq {α : Type} [LinearOrder α] (s : List (Nat × α))
    (hs : s.Pairwise (fun a b => b.2 ≤ a.2)) :
    ∀ (l pre : List (Nat × α)) (prevVal : Option α) (prevRank : Nat),
      s = pre ++ l →
      (pre = [] → prevVal = none) →
      (∀ x, pre.getLast? = some x →
        prevVal = some x.2 ∧ prevRank = 1 + countGreater s x.2) →
      rankWalk l prevVal prevRank (pre.length + 1) =
        l.map (fun x => (x.1, 1 + countGreater s x.2)) := by
  intro l
  induction l with
  | nil => intro pre pv pr _ _ _; rfl
  | cons p rest ih =>
    intro pre pv pr hsplit hnil hlast
    obtain ⟨tid, v⟩ := p
    have hpw := hs
    rw [hsplit, List.pairwise_append] at hpw
    obtain ⟨hpre, hcons, hcross⟩ := hpw
    have hrest_le : ∀ y ∈ rest, y.2 ≤ v := fun y hy =>
      List.rel_of_pairwise_cons hcons hy
    have hcg_tail : countGreater ((tid, v) :: rest) v = 0 := by
      unfold countGreater
      rw [List.length_eq_zero, List.filter_eq_nil_iff]
      intro a ha
      rcases List.mem_cons.mp ha with h | h
      · subst h; simp
      · simp [not_lt.mpr (hrest_le a h)]
    by_cases hv : pv = some v
    · rcases List.eq_nil_or_concat pre with hpre0 | ⟨init, x0, hpre0⟩
      · rw [hnil hpre0] at hv; exact absurd hv (by simp)
      rw [List.concat_eq_append] at hpre0
      obtain ⟨hpv0, hpr0⟩ := hlast x0 (by rw [hpre0]; exact List.getLast?_concat _)
      have hx0v : x0.2 = v := by
        rw [hpv0] at hv; exact Option.some.inj hv
      simp only [rankWalk, if_pos hv]
      rw [List.map_cons]
      refine congrArg₂ _ (by rw [hpr0, hx0v]) ?_
      have hlen : pre.length + 1 + 1 = (pre ++ [(tid, v)]).length + 1 := by
        simp
      rw [hlen]
      refine ih (pre ++ [(tid, v)]) pv pr (by rw [hsplit, List.append_assoc]; rfl)
        (fun h => absurd h (by simp)) ?_
      intro x hx
      rw [List.getLast?_concat] at hx
      obtain rfl := Option.some.inj hx
      exact ⟨by rw [hpv0, hx0v], by rw [hpr0, hx0v]⟩
    · have hcg_pre : countGreater pre v = pre.length := by
        unfold countGreater
        rw [List.filter_eq_self.mpr]
        intro a ha
        rcases List.eq_nil_or_concat pre with hpre0 | ⟨init, x0, hpre0⟩
        · rw [hpre0] at ha; exact absurd ha (List.not_mem_nil a)
        rw [List.concat_eq_append] at hpre0
        obtain ⟨hpv0, _⟩ := hlast x0 (by rw [hpre0]; exact List.getLast?_concat _)
        have hx0ne : x0.2 ≠ v := by
          intro h; rw [hpv0, h] at hv; exact hv rfl
        have hx0gt : v < x0.2 :=
          lt_of_le_of_ne
            (hcross x0 (by rw [hpre0]; simp) (tid, v) (List.mem_cons_self _ _))
            (Ne.symm hx0ne)
        rw [hpre0] at ha hpre
        rcases List.mem_append.mp ha with h | h
        · rw [List.pairwise_append] at hpre
          have : x0.2 ≤ a.2 := hpre.2.2 a h x0 (List.mem_singleton_self _)
          simpa using hx0gt.trans_le this
        · rw [List.mem_singleton.mp h]
          simpa using hx0gt
      have hcg : countGreater s v = pre.length := by
        rw [hsplit]
        unfold countGreater
        rw [List.filter_append, List.length_append]
        have h2 : countGreater ((tid, v) :: rest) v = 0 := hcg_tail
        unfold countGreater at h2 hcg_pre
        omega
      simp only [rankWalk, if_neg hv]
      rw [List.map_cons]
      refine congrArg₂ _ (by rw [hcg]; exact congrArg _ (Nat.add_comm _ _)) ?_
      have hlen : pre.length + 1 + 1 = (pre ++ [(tid, v)]).length + 1 := by
        simp
      rw [hlen]
      refine ih (pre ++ [(tid, v)]) (some v) (pre.length + 1)
        (by rw [hsplit, List.append_assoc]; rfl)
        (fun h => absurd h (by simp)) ?_
      intro x hx
      rw [List.getLast?_concat] at hx
      obtain rfl := Option.some.inj hx
      exact ⟨rfl, by rw [hcg]; exact Nat.add_comm _ _⟩

/-- The closed form of `rank_stat`: the walk assigns, to the entry at each
sorted position, `1 +` the number of entries whose value is strictly greater
(ties counted with multiplicity in the original map). -/
theorem rank_stat_eq {α : Type} [LinearOrder α] (m : List (Nat × α)) :
    rank_stat m = (sortByVal true m).map (fun x => (x.1, 1 + countGreater m x.2)) := by
  have h := rankWalk_eq (sortByVal true m) (sortByVal_sorted m)
    (sortByVal true m) [] none 0 rfl (fun _ => rfl) (by intro x hx; simp at hx)
  simp only [List.length_nil, Nat.zero_add] at h
  rw [rank_stat, h]
  refine List.map_congr_left ?_
  intro x _
  rw [countGreater_perm (sortByVal_perm true m)]

theorem dlookup_some_mem {β : Type} {m : List (Nat × β)} {k : Nat} {v : β}
    (h : dlookup m k = some v) : (k, v) ∈ m := by
  induction m with
  | nil => exact absurd h (by simp [dlookup])
  | cons p rest ih =>
    obtain ⟨k', v'⟩ := p
    by_cases hk : k' = k
    · subst hk
      rw [dlookup, if_pos rfl] at h
      exact List.mem_cons.mpr (Or.inl (by rw [Option.some.inj h]))
    · rw [dlookup, if_neg hk] at h
      exact List.mem_cons.mpr (Or.inr (ih h))

theorem mem_dlookup_of_nodup {β : Type} {m : List (Nat × β)}
    (hnd : (m.map Prod.fst).Nodup) {k : Nat} {v : β} (h : (k, v) ∈ m) :
    dlookup m k = some v := by
  induction m with
  | nil => exact absurd h (List.not_mem_nil _)
  | cons p rest ih =>
    obtain ⟨k', v'⟩ := p
    rw [List.map_cons, List.nodup_cons] at hnd
    rcases List.mem_cons.mp h with h0 | h0
    · rw [Prod.mk.injEq] at h0
      obtain ⟨rfl, rfl⟩ := h0
      simp [dlookup]
    · have hkmem : k ∈ rest.map Prod.fst := List.mem_map_of_mem Prod.fst h0
      have hne : k' ≠ k := fun heq => hnd.1 (by rw [heq]; exact hkmem)
      rw [dlookup, if_neg hne]
      exact ih hnd.2 h0

theorem countGreater_anti {α : Type} [LinearOrder α] (m : List (Nat × α))
    {v w : α} (h : v ≤ w) : countGreater m w ≤ countGreater m v := by
  induction m with
  | nil => exact Nat.le_refl 0
  | cons a t ih =>
    unfold countGreater at ih ⊢
    by_cases hw : w < a.2
    · have hv2 : v < a.2 := lt_of_le_of_lt h hw
      simp [List.filter_cons, hw, hv2]
      omega
    · by_cases hv2 : v < a.2
      · simp [List.filter_cons, hw, hv2]
        omega
      · simp [List.filter_cons, hw, hv2]
        exact ih

theorem sorted_first_occ {α : Type} [LinearOrder α] (s : List (Nat × α))
    (hs : s.Pairwise (fun a b => b.2 ≤ a.2)) (v : α)
    (hv : ∃ x ∈ s, x.2 = v) :
    ∃ x, s.get? (countGreater s v) = some x ∧ x.2 = v ∧
      ∀ k x', k < countGreater s v → s.get? k = some x' → v < x'.2 := by
  induction s with
  | nil => obtain ⟨x, hx, _⟩ := hv; exact absurd hx (List.not_mem_nil x)
  | cons a t ih =>
    rw [List.pairwise_cons] at hs
    by_cases hva : v < a.2
    · have hcg : countGreater (a :: t) v = countGreater t v + 1 := by
        simp [countGreater, List.filter_cons, hva]
      have hvt : ∃ x ∈ t, x.2 = v := by
        obtain ⟨x, hx, hxv⟩ := hv
        rcases List.mem_cons.mp hx with rfl | hx0
        · exact absurd hxv (by intro hh; rw [hh] at hva; exact lt_irrefl v hva)
        · exact ⟨x, hx0, hxv⟩
      obtain ⟨x, hx, hxv, hpre⟩ := ih hs.2 hvt
      refine ⟨x, ?_, hxv, ?_⟩
      · rw [hcg]
        simpa using hx
      · intro k x' hk hky
        rw [hcg] at hk
        match k with
        | 0 =>
          rw [List.get?_cons_zero] at hky
          rw [← Option.some.inj hky]
          exact hva
        | k' + 1 =>
          rw [List.get?_cons_succ] at hky
          exact hpre k' x' (by omega) hky
    · have hav : a.2 = v := by
        obtain ⟨x, hx, hxv⟩ := hv
        rcases List.mem_cons.mp hx with rfl | hx0
        · exact hxv
        · have h1 : x.2 ≤ a.2 := hs.1 x hx0
          have h2 : a.2 ≤ v := not_lt.mp hva
          exact le_antisymm h2 (hxv ▸ h1)
      have hcg : countGreater (a :: t) v = 0 := by
        have h1 : List.filter (fun y => decide (v < y.2)) (a :: t) = [] := by
          rw [List.filter_eq_nil_iff]
          intro x hx
          rcases List.mem_cons.mp hx with rfl | hx0
          · simpa using hva
          · simpa using not_lt.mpr ((hs.1 x hx0).trans (le_of_eq hav))
        simp [countGreater, h1]
      refine ⟨a, by rw [hcg]; rfl, hav, ?_⟩
      intro k x' hk _
      rw [hcg] at hk
      exact absurd hk (Nat.not_lt_zero k)

/-- C6: `rank_stat` with higher-is-better implements competition ranking.
Each team's rank is `1 +` the number of entries with a strictly greater
value, which is the 1-based ordinal position of the first occurrence of its
value in the descending-sorted sequence (the entry at 0-based position
`countGreater m v` of the sorted sequence holds value `v`, and every entry
before it is strictly greater); teams with equal values receive equal ranks;
and ranks are non-decreasing along sorted position, with gaps equal to the
count of tied predecessors. -/
theorem rank_stat_competition_ranking {α : Type} [LinearOrder α]
    (m : List (Nat × α)) (hnd : (m.map Prod.fst).Nodup) :
    (∀ tid v, dlookup m tid = some v →
      dlookup (rank_stat m) tid = some (1 + countGreater m v)) ∧
    (∀ tid v, dlookup m tid = some v →
      ∃ x, (sortByVal true m).get? (countGreater m v) = some x ∧ x.2 = v ∧
        ∀ k x', k < countGreater m v → (sortByVal true m).get? k = some x' →
          v < x'.2) ∧
    (∀ t1 t2 v1 v2 r1 r2, dlookup m t1 = some v1 → dlookup m t2 = some v2 →
      dlookup (rank_stat m) t1 = some r1 → dlookup (rank_stat m) t2 = some r2 →
      v1 = v2 → r1 = r2) ∧
    (∀ i j ri rj, i ≤ j → (rank_stat m).get? i = some ri →
      (rank_stat m).get? j = some rj → ri.2 ≤ rj.2) := by
  have hperm := sortByVal_perm true m
  have h1 : ∀ tid v, dlookup m tid = some v →
      dlookup (rank_stat m) tid = some (1 + countGreater m v) := by
    intro tid v hl
    have hmem_s : (tid, v) ∈ sortByVal true m := hperm.mem_iff.mpr (dlookup_some_mem hl)
    have hmem_r : (tid, 1 + countGreater m v) ∈ rank_stat m := by
      rw [rank_stat_eq]
      exact List.mem_map.mpr ⟨(tid, v), hmem_s, rfl⟩
    refine mem_dlookup_of_nodup ?_ hmem_r
    rw [rank_stat_eq, keys_map_val (fun x => 1 + countGreater m x.2)]
    exact (hperm.map Prod.fst).nodup_iff.mpr hnd
  refine ⟨h1, ?_, ?_, ?_⟩
  · intro tid v hl
    have hmem_s : (tid, v) ∈ sortByVal true m := hperm.mem_iff.mpr (dlookup_some_mem hl)
    have h := sorted_first_occ (sortByVal true m) (sortByVal_sorted m) v
      ⟨(tid, v), hmem_s, rfl⟩
    rwa [countGreater_perm hperm] at h
  · intro t1 t2 v1 v2 r1 r2 hv1 hv2 hr1 hr2 hveq
    rw [h1 t1 v1 hv1] at hr1
    rw [h1 t2 v2 hv2] at hr2
    rw [← Option.some.inj hr1, ← Option.some.inj hr2, hveq]
  · intro i j ri rj hij hi hj
    rw [rank_stat_eq, List.get?_map] at hi hj
    obtain ⟨xi, hxi, hfi⟩ := Option.map_eq_some'.mp hi
    obtain ⟨xj, hxj, hfj⟩ := Option.map_eq_some'.mp hj
    rcases eq_or_lt_of_le hij with rfl | hlt
    · rw [hxi] at hxj
      rw [← hfi, ← hfj, Option.some.inj hxj]
    · obtain ⟨hbi, hgi⟩ := List.get?_eq_some.mp hxi
      obtain ⟨hbj, hgj⟩ := List.get?_eq_some.mp hxj
      have hle : xj.2 ≤ xi.2 := by
        have hp := List.pairwise_iff_get.mp (sortByVal_sorted m) ⟨i, hbi⟩ ⟨j, hbj⟩ hlt
        rw [hgi, hgj] at hp
        exact hp
      rw [← hfi, ← hfj]
      simpa using countGreater_anti m hle

theorem insertionSort_pr_score_sorted (ps : List PowerScore) :
    (ps.insertionSort (fun a b => a.pr_score ≤ b.pr_score)).Pairwise
      (fun a b => a.pr_score ≤ b.pr_score) := by
  letI : IsTotal PowerScore (fun a b => a.pr_score ≤ b.pr_score) :=
    ⟨fun a b => le_total _ _⟩
  letI : IsTrans PowerScore (fun a b => a.pr_score ≤ b.pr_score) :=
    ⟨fun a b c hab hbc => hab.trans hbc⟩
  exact List.sorted_insertionSort (fun a b => a.pr_score ≤ b.pr_score) ps

/-- C9: the final sorter orders the records by composite score ascending,
assigns each record `power_rank` equal to its 1-based position in that order,
sets every record's `change` field to the single placeholder sentinel, and
returns exactly the input records (all other fields untouched), reordered. -/
theorem rank_teams_by_score_spec (ps : List PowerScore) :
    (rank_teams_by_score ps).Pairwise (fun a b => a.pr_score ≤ b.pr_score) ∧
    (∀ i r, (rank_teams_by_score ps).get? i = some r → r.power_rank = i + 1) ∧
    ((rank_teams_by_score ps).map coreFields).Perm (ps.map coreFields) ∧
    (∀ r ∈ rank_teams_by_score ps, r.change = changePlaceholder) := by
  refine ⟨?_, ?_, ?_, ?_⟩
  · rw [rank_teams_by_score, List.pairwise_map]
    have h2 := insertionSort_pr_score_sorted ps
    rw [← List.enum_map_snd (ps.insertionSort (fun a b => a.pr_score ≤ b.pr_score)),
      List.pairwise_map] at h2
    exact h2.imp (fun h => h)
  · intro i r hr
    rw [rank_teams_by_score] at hr
    rw [List.get?_eq_getElem?, List.getElem?_map, List.getElem?_enum] at hr
    rcases h0 : (ps.insertionSort (fun a b => a.pr_score ≤ b.pr_score))[i]? with _ | b
    · rw [h0] at hr; exact absurd hr (by simp)
    · rw [h0] at hr
      simp only [Option.map_some'] at hr
      rw [← Option.some.inj hr]
  · rw [rank_teams_by_score]
    have hcore : ∀ s : List PowerScore,
        ((s.enum.map (fun p =>
          { p.2 with power_rank := p.1 + 1, change := changePlaceholder })).map coreFields)
          = s.map coreFields := by
      intro s
      rw [List.map_map]
      have h1 : (coreFields ∘ fun p : Nat × PowerScore =>
          ({ p.2 with power_rank := p.1 + 1, change := changePlaceholder } : PowerScore))
          = (fun p : Nat × PowerScore => coreFields p.2) := rfl
      rw [h1]
      have h2 : (fun p : Nat × PowerScore => coreFields p.2)
          = coreFields ∘ (Prod.snd : Nat × PowerScore → PowerScore) := rfl
      rw [h2, ← List.map_map, List.enum_map_snd]
    rw [hcore]
    exact ((List.perm_insertionSort _ ps).map coreFields)
  · intro r hr
    rw [rank_teams_by_score] at hr
    obtain ⟨p, _, hp⟩ := List.mem_map.mp hr
    rw [← hp]

theorem dlookup_dset {β : Type} (m : List (Nat × β)) (k tid : Nat) (v : β) :
    dlookup (dset m k v) tid = if k = tid then some v else dlookup m tid := by
  induction m with
  | nil =>
    by_cases h : k = tid <;> simp [dset, dlookup, h]
  | cons p rest ih =>
    obtain ⟨k', v'⟩ := p
    by_cases hk : k' = k
    · subst hk
      by_cases ht : k' = tid
      · subst ht; simp [dset, dlookup]
      · simp [dset, dlookup, ht, ih]
    · by_cases ht : k' = tid
      · subst ht
        rw [dset, if_neg hk, dlookup, if_pos rfl, if_neg (by intro h; exact hk h.symm),
          dlookup, if_pos rfl]
      · rw [dset, if_neg hk, dlookup, if_neg ht, ih, dlookup, if_neg ht]

theorem get_team_info_lookup :
    ∀ (teams : List Team) (acc : List (Nat × TeamInfo)) (tid : Nat) (info : TeamInfo),
      dlookup (teams.foldl (fun acc team => dset acc team.id (team_info_entry team)) acc) tid
        = some info →
      dlookup acc tid = some info ∨
        ∃ team ∈ teams, team.id = tid ∧ info = team_info_entry team := by
  intro teams
  induction teams with
  | nil => intro acc tid info h; exact Or.inl h
  | cons team rest ih =>
    intro acc tid info h
    rw [List.foldl_cons] at h
    rcases ih _ tid info h with h0 | ⟨tm, hmem, hid, hinfo⟩
    · rw [dlookup_dset] at h0
      by_cases hid : team.id = tid
      · rw [if_pos hid] at h0
        exact Or.inr ⟨team, List.mem_cons_self _ _, hid, (Option.some.inj h0).symm⟩
      · rw [if_neg hid] at h0
        exact Or.inl h0
    · exact Or.inr ⟨tm, List.mem_cons_of_mem _ hmem, hid, hinfo⟩

/-- C8: every entry of the team-info map comes from an input team; its
`games_played` is `wins + losses + ties`; its `record_score` is
`(wins + 0.5 * ties) / games_played`, or 0 when no games were played; and the
record score always lies in `[0, 1]`. -/
theorem record_score_spec (teams : List Team) (tid : Nat) (info : TeamInfo)
    (h : dlookup (get_team_info teams) tid = some info) :
    ∃ team ∈ teams, team.id = tid ∧
      info.games_played = team.record.wins + team.record.losses + team.record.ties ∧
      (info.games_played = 0 → info.record_score = 0) ∧
      (info.games_played ≠ 0 → info.record_score =
        ((team.record.wins : ℚ) + 0.5 * (team.record.ties : ℚ)) / (info.games_played : ℚ)) ∧
      0 ≤ info.record_score ∧ info.record_score ≤ 1 := by
  rcases get_team_info_lookup teams [] tid info h with h0 | ⟨team, hmem, hid, hinfo⟩
  · exact absurd h0 (by simp [dlookup])
  subst hinfo
  refine ⟨team, hmem, hid, rfl, ?_, ?_, ?_, ?_⟩
  · intro h0
    have h0' : team.record.wins + team.record.losses + team.record.ties = 0 := h0
    show (if team.record.wins + team.record.losses + team.record.ties = 0 then (0 : ℚ)
      else _) = 0
    rw [if_pos h0']
  · intro h0
    have h0' : ¬ team.record.wins + team.record.losses + team.record.ties = 0 := h0
    show (if team.record.wins + team.record.losses + team.record.ties = 0 then (0 : ℚ)
      else ((team.record.wins : ℚ) + 0.5 * (team.record.ties : ℚ))
        / ((team.record.wins + team.record.losses + team.record.ties : Nat) : ℚ)) = _
    rw [if_neg h0']
    rfl
  · show (0 : ℚ) ≤ if team.record.wins + team.record.losses + team.record.ties = 0 then (0 : ℚ)
      else ((team.record.wins : ℚ) + 0.5 * (team.record.ties : ℚ))
        / ((team.record.wins + team.record.losses + team.record.ties : Nat) : ℚ)
    split
    · exact le_refl 0
    · apply div_nonneg
      · positivity
      · positivity
  · show (if team.record.wins + team.record.losses + team.record.ties = 0 then (0 : ℚ)
      else ((team.record.wins : ℚ) + 0.5 * (team.record.ties : ℚ))
        / ((team.record.wins + team.record.losses + team.record.ties : Nat) : ℚ)) ≤ 1
    split
    · exact zero_le_one
    · rename_i hgp
      rw [div_le_one (by positivity)]
      push_cast
      have ht : (0 : ℚ) ≤ (team.record.ties : ℚ) := Nat.cast_nonneg _
      have hl : (0 : ℚ) ≤ (team.record.losses : ℚ) := Nat.cast_nonneg _
      linarith

theorem foldl_max_spec :
    ∀ (xs : List Nat) (x : Nat),
      xs.foldl Nat.max x ∈ x :: xs ∧ ∀ y ∈ x :: xs, y ≤ xs.foldl Nat.max x := by
  intro xs
  induction xs with
  | nil =>
    intro x
    exact ⟨List.mem_singleton_self x, fun y hy => le_of_eq (List.mem_singleton.mp hy)⟩
  | cons a xs ih =>
    intro x
    obtain ⟨hmem, hbound⟩ := ih (Nat.max x a)
    constructor
    · rw [List.foldl_cons]
      rcases List.mem_cons.mp hmem with h | h
      · have hm : x.max a = x ∨ x.max a = a := by
          rcases Nat.le_total x a with hle | hle
          · exact Or.inr (Nat.max_eq_right hle)
          · exact Or.inl (Nat.max_eq_left hle)
        rcases hm with hm | hm <;> rw [h, hm]
        · exact List.mem_cons_self _ _
        · exact List.mem_cons_of_mem _ (List.mem_cons_self _ _)
      · exact List.mem_cons_of_mem _ (List.mem_cons_of_mem _ h)
    · intro y hy
      rw [List.foldl_cons]
      rcases List.mem_cons.mp hy with rfl | hy0
      · exact le_trans (Nat.le_max_left y a) (hbound _ (List.mem_cons_self _ _))
      rcases List.mem_cons.mp hy0 with rfl | hy1
      · exact le_trans (Nat.le_max_right x y) (hbound _ (List.mem_cons_self _ _))
      · exact hbound y (List.mem_cons_of_mem _ hy1)

theorem listMax_eq_none_iff (l : List Nat) : listMax l = none ↔ l = [] := by
  cases l <;> simp [listMax]

theorem listMax_spec (l : List Nat) (w : Nat) (h : listMax l = some w) :
    w ∈ l ∧ ∀ y ∈ l, y ≤ w := by
  cases l with
  | nil => exact absurd h (by simp [listMax])
  | cons x xs =>
    rw [listMax] at h
    obtain rfl := Option.some.inj h
    exact foldl_max_spec xs x

/-- C4 (amended): `get_current_week` fails exactly when no matchup passes the
truthiness test (winner present, non-empty, and not "UNDECIDED"), and
otherwise returns the maximum `matchupPeriodId` over exactly the matchups
passing that test. -/
theorem get_current_week_correct (schedule : List Matchup) :
    (get_current_week schedule = none ↔
      ∀ m ∈ schedule, decidedWinner m = false) ∧
    (∀ w, get_current_week schedule = some w →
      (∃ m ∈ schedule, decidedWinner m = true ∧ m.matchupPeriodId = w) ∧
      ∀ m ∈ schedule, decidedWinner m = true → m.matchupPeriodId ≤ w) := by
  constructor
  · rw [get_current_week, listMax_eq_none_iff, List.map_eq_nil_iff, List.filter_eq_nil_iff]
    constructor
    · intro h m hm
      by_cases hd : decidedWinner m = true
      · exact absurd hd (h m hm)
      · exact Bool.not_eq_true _ ▸ hd
    · intro h m hm
      rw [h m hm]
      simp
  · intro w hw
    obtain ⟨hmem, hbound⟩ := listMax_spec _ w hw
    constructor
    · obtain ⟨m, hm, hid⟩ := List.mem_map.mp hmem
      obtain ⟨hms, hmd⟩ := List.mem_filter.mp hm
      exact ⟨m, hms, hmd, hid⟩
    · intro m hm hd
      exact hbound _ (List.mem_map_of_mem _ (List.mem_filter.mpr ⟨hm, hd⟩))

/-- C4 counterexample: a matchup whose `winner` is present but the empty
string is skipped by the source (Python truthiness) yet counted by the claim
("present and not UNDECIDED"), so the two maxima differ. -/
theorem get_current_week_counterexample :
    get_current_week
        [⟨1, some "HOME", none, none⟩, ⟨5, some "", none, none⟩] = some 1 ∧
    get_current_week_spec
        [⟨1, some "HOME", none, none⟩, ⟨5, some "", none, none⟩] = some 5 ∧
    (1 : Nat) ≠ 5 := by
  refine ⟨rfl, rfl, by decide⟩

/-- C4 witness: the amended theorem applied to a concrete schedule whose
decided weeks are 3 and 2, with an undecided week 9. -/
theorem get_current_week_correct_witness :
    (∃ m ∈ [⟨3, some "HOME", none, none⟩, ⟨2, some "AWAY", none, none⟩,
        (⟨9, none, none, none⟩ : Matchup)],
      decidedWinner m = true ∧ m.matchupPeriodId = 3) ∧
    ∀ m ∈ [⟨3, some "HOME", none, none⟩, ⟨2, some "AWAY", none, none⟩,
        (⟨9, none, none, none⟩ : Matchup)],
      decidedWinner m = true → m.matchupPeriodId ≤ 3 :=
  (get_current_week_correct _).2 3 rfl

theorem sum_enumFrom_wins (C : Int) :
    ∀ (s : List (Nat × ℚ)) (j : Nat),
      2 * ((s.enumFrom j).map (fun p => C - (p.1 : Int))).sum =
        2 * (s.length : Int) * C - 2 * (s.length : Int) * (j : Int)
          - (s.length : Int) * ((s.length : Int) - 1) := by
  intro s
  induction s with
  | nil => intro j; simp
  | cons x s ih =>
    intro j
    rw [List.enumFrom_cons, List.map_cons, List.sum_cons, List.length_cons]
    have h := ih (j + 1)
    push_cast at h ⊢
    linarith [h]

/-- C1 (amended): in a week's all-play assignment, the entry at 0-based sorted
position `i` earns `num_teams - 1 - i` wins and `i` losses, where `num_teams`
is the league-wide team count passed to `calculate_overall_wins_and_losses`
(not the number of teams scoring that week); hence every entry's wins + losses
equal `num_teams - 1`, twice the week's total wins equal
`2·K·(num_teams−1) − K·(K−1)` for `K` entries scoring that week, and when all
`num_teams` teams score that week this is `num_teams · (num_teams − 1)`,
i.e. the claimed total `N·(N−1)/2` doubled. -/
theorem overall_allplay_week (num_teams : Nat) (l : List (Nat × ℚ)) :
    (∀ i x, (weekAssignments num_teams l).get? i = some x →
      x.2.1 = (num_teams : Int) - 1 - (i : Int) ∧ x.2.2 = (i : Int) ∧
      x.2.1 + x.2.2 = (num_teams : Int) - 1) ∧
    (2 * ((weekAssignments num_teams l).map (fun a => a.2.1)).sum =
      2 * (l.length : Int) * ((num_teams : Int) - 1)
        - (l.length : Int) * ((l.length : Int) - 1)) ∧
    (l.length = num_teams →
      2 * ((weekAssignments num_teams l).map (fun a => a.2.1)).sum =
        (num_teams : Int) * ((num_teams : Int) - 1)) := by
  have hsum : 2 * ((weekAssignments num_teams l).map (fun a => a.2.1)).sum =
      2 * (l.length : Int) * ((num_teams : Int) - 1)
        - (l.length : Int) * ((l.length : Int) - 1) := by
    rw [weekAssignments, List.map_map]
    have hmap : ((fun a : Nat × Int × Int => a.2.1) ∘ fun p : Nat × (Nat × ℚ) =>
        (p.2.1, ((num_teams : Int) - 1 - (p.1 : Int), (p.1 : Int))))
        = fun p : Nat × (Nat × ℚ) => ((num_teams : Int) - 1) - (p.1 : Int) := rfl
    rw [hmap]
    have h := sum_enumFrom_wins ((num_teams : Int) - 1) (sortByVal true l) 0
    rw [List.enum_eq_enumFrom]
    rw [(sortByVal_perm true l).length_eq] at h
    push_cast at h ⊢
    linarith [h]
  refine ⟨?_, hsum, ?_⟩
  · intro i x hx
    rw [weekAssignments, List.get?_eq_getElem?, List.getElem?_map, List.getElem?_enum] at hx
    rcases h0 : (sortByVal true l)[i]? with _ | y
    · rw [h0] at hx; exact absurd hx (by simp)
    · rw [h0] at hx
      simp only [Option.map_some'] at hx
      rw [← Option.some.inj hx]
      exact ⟨rfl, rfl, by ring⟩
  · intro hK
    rw [hsum, hK]
    ring

/-- C1 counterexample: one scored matchup (teams 1 and 2) in a 3-team league.
`N = 2` teams score that week, yet the code credits the winner
`num_teams - 1 = 2` wins, so wins + losses is `2`, not `N - 1 = 1`: the
per-week all-play arithmetic uses the league size, not the number of teams
scoring that week. -/
theorem overall_allplay_counterexample :
    weeklyMatchups [⟨1, some "HOME", some ⟨1, 100⟩, some ⟨2, 90⟩⟩]
      = [(1, [(1, 100), (2, 90)])] ∧
    (calculate_overall_wins_and_losses
      [⟨1, some "HOME", some ⟨1, 100⟩, some ⟨2, 90⟩⟩] 3).1 = [(1, 2), (2, 1)] ∧
    (calculate_overall_wins_and_losses
      [⟨1, some "HOME", some ⟨1, 100⟩, some ⟨2, 90⟩⟩] 3).2.1 = [(1, 0), (2, 1)] ∧
    ¬ ((2 : Int) + 0 = (List.length [(1, (100 : ℚ)), (2, 90)] : Int) - 1) := by
  refine ⟨by decide, by decide, by decide, by decide⟩

/-- C1 witness: the amended theorem at a 2-team week where both teams score:
the week's doubled win total is `2·(2−1) = 2` and the top entry's
wins + losses is `2 − 1`. -/
theorem overall_allplay_week_witness :
    2 * ((weekAssignments 2 [(1, (100 : ℚ)), (2, 90)]).map (fun a => a.2.1)).sum
      = (2 : Int) * ((2 : Int) - 1) ∧
    (1 : Int) + 0 = (2 : Int) - 1 :=
  ⟨(overall_allplay_week 2 [(1, (100 : ℚ)), (2, 90)]).2.2 rfl,
   ((overall_allplay_week 2 [(1, (100 : ℚ)), (2, 90)]).1 0 (1, 1, 0) (by decide)).2.2⟩

theorem traverseOption_isSome {α β : Type} (f : α → Option β) :
    ∀ (l : List α), (∀ a ∈ l, (f a).isSome) →
      ∃ l', traverseOption f l = some l' ∧ ∀ a ∈ l, ∃ b ∈ l', f a = some b := by
  intro l
  induction l with
  | nil => intro _; exact ⟨[], rfl, by simp⟩
  | cons a l ih =>
    intro h
    obtain ⟨b, hb⟩ := Option.isSome_iff_exists.mp (h a (List.mem_cons_self a l))
    obtain ⟨l', hl', hmem⟩ := ih (fun x hx => h x (List.mem_cons_of_mem a hx))
    refine ⟨b :: l', ?_, ?_⟩
    · rw [traverseOption, hb, hl']
    · intro x hx
      rcases List.mem_cons.mp hx with rfl | hx0
      · exact ⟨b, List.mem_cons_self b l', hb⟩
      · obtain ⟨c, hc, hfc⟩ := hmem x hx0
        exact ⟨c, List.mem_cons_of_mem b hc, hfc⟩

theorem traverseOption_mem {α β : Type} (f : α → Option β) :
    ∀ (l : List α) (l' : List β), traverseOption f l = some l' →
      ∀ b ∈ l', ∃ a ∈ l, f a = some b := by
  intro l
  induction l with
  | nil =>
    intro l' h b hb
    rw [traverseOption] at h
    rw [← Option.some.inj h] at hb
    exact absurd hb (List.not_mem_nil b)
  | cons a l ih =>
    intro l' h b hb
    rw [traverseOption] at h
    rcases hfa : f a with _ | b0 <;> rw [hfa] at h
    · exact absurd h (by simp)
    rcases htl : traverseOption f l with _ | bs <;> rw [htl] at h
    · exact absurd h (by simp)
    rw [← Option.some.inj h] at hb
    rcases List.mem_cons.mp hb with rfl | hb0
    · exact ⟨a, List.mem_cons_self a l, hfa⟩
    · obtain ⟨c, hc, hfc⟩ := ih bs htl b hb0
      exact ⟨c, List.mem_cons_of_mem a hc, hfc⟩

theorem traverseOption_map_shape {α β : Type} (f : α → Option β) (g : α → β)
    (hg : ∀ a r, f a = some r → r = g a) :
    ∀ (l : List α) (l' : List β), traverseOption f l = some l' → l' = l.map g := by
  intro l
  induction l with
  | nil => intro l' h; rw [traverseOption] at h; rw [← Option.some.inj h]; rfl
  | cons a l ih =>
    intro l' h
    rw [traverseOption] at h
    rcases hfa : f a with _ | b0 <;> rw [hfa] at h
    · exact absurd h (by simp)
    rcases htl : traverseOption f l with _ | bs <;> rw [htl] at h
    · exact absurd h (by simp)
    rw [← Option.some.inj h, List.map_cons, hg a b0 hfa, ih bs htl]

theorem build_power_entry_isSome (record_ranks : List (Nat × Nat)) (stats : Stats)
    (weights : Weights) (cw : Nat) (p : Nat × TeamInfo)
    (h1 : (dlookup record_ranks p.1).isSome)
    (h2 : (dlookup stats.overall_ranks p.1).isSome)
    (h3 : 3 ≤ cw → (dlookup stats.consistency_ranks p.1).isSome)
    (h4 : (dlookup stats.ppg_ranks p.1).isSome)
    (h5 : (dlookup stats.ros_ranks p.1).isSome) :
    (build_power_entry record_ranks stats weights cw p).isSome := by
  obtain ⟨a1, e1⟩ := Option.isSome_iff_exists.mp h1
  obtain ⟨a2, e2⟩ := Option.isSome_iff_exists.mp h2
  obtain ⟨a4, e4⟩ := Option.isSome_iff_exists.mp h4
  obtain ⟨a5, e5⟩ := Option.isSome_iff_exists.mp h5
  by_cases hcw : 3 ≤ cw
  · obtain ⟨a3, e3⟩ := Option.isSome_iff_exists.mp (h3 hcw)
    simp [build_power_entry, e1, e2, e3, e4, e5, hcw]
  · simp [build_power_entry, e1, e2, e4, e5, hcw]

theorem build_power_entry_some (record_ranks : List (Nat × Nat)) (stats : Stats)
    (weights : Weights) (cw : Nat) (p : Nat × TeamInfo) (r : PowerScore)
    (h : build_power_entry record_ranks stats weights cw p = some r) :
    r.team_id = p.1 ∧
    r.consistency = dlookup stats.consistency_ranks p.1 ∧
    ∃ (recr ovr pr rosr : Nat) (cv : ℚ),
      dlookup record_ranks p.1 = some recr ∧
      dlookup stats.overall_ranks p.1 = some ovr ∧
      dlookup stats.ppg_ranks p.1 = some pr ∧
      dlookup stats.ros_ranks p.1 = some rosr ∧
      ((3 ≤ cw ∧ ∃ cr : Nat, dlookup stats.consistency_ranks p.1 = some cr ∧
        cv = (cr : ℚ) * weights.consistency) ∨ (¬ 3 ≤ cw ∧ cv = 0)) ∧
      r.pr_score = round2 ((recr : ℚ) * weights.record + (ovr : ℚ) * weights.overall
        + cv + (pr : ℚ) * weights.ppg + (rosr : ℚ) * weights.ros) := by
  rw [build_power_entry] at h
  rcases h1 : dlookup record_ranks p.1 with _ | recr <;> rw [h1] at h
  case none => exact absurd h (by simp)
  rcases h2 : dlookup stats.overall_ranks p.1 with _ | ovr <;> rw [h2] at h
  case none => exact absurd h (by simp)
  rcases h3 : (if 3 ≤ cw then
      (dlookup stats.consistency_ranks p.1).map
        (fun r : Nat => (r : ℚ) * weights.consistency)
    else some 0) with _ | cv <;> rw [h3] at h
  case none => exact absurd h (by simp)
  rcases h4 : dlookup stats.ppg_ranks p.1 with _ | pr <;> rw [h4] at h
  case none => exact absurd h (by simp)
  rcases h5 : dlookup stats.ros_ranks p.1 with _ | rosr <;> rw [h5] at h
  case none => exact absurd h (by simp)
  refine ⟨by rw [← Option.some.inj h], by rw [← Option.some.inj h],
    recr, ovr, pr, rosr, cv, rfl, rfl, rfl, rfl, ?_, by rw [← Option.some.inj h]⟩
  by_cases hcw : 3 ≤ cw
  · rw [if_pos hcw] at h3
    obtain ⟨cr, hcr, hcv⟩ := Option.map_eq_some'.mp h3
    exact Or.inl ⟨hcw, cr, hcr, hcv.symm⟩
  · rw [if_neg hcw] at h3
    exact Or.inr ⟨hcw, (Option.some.inj h3).symm⟩

theorem round2_fifth (z : ℤ) : round2 ((z : ℚ) / 5) = (z : ℚ) / 5 := by
  rw [round2]
  have h : ((z : ℚ) / 5) * 100 = ((20 * z : ℤ) : ℚ) := by push_cast; ring
  rw [h, round_intCast]
  push_cast
  ring

theorem rank_teams_by_score_sorted (ps : List PowerScore) :
    (rank_teams_by_score ps).Pairwise (fun a b => a.pr_score ≤ b.pr_score) := by
  rw [rank_teams_by_score, List.pairwise_map]
  have h2 := insertionSort_pr_score_sorted ps
  rw [← List.enum_map_snd (ps.insertionSort (fun a b => a.pr_score ≤ b.pr_score)),
    List.pairwise_map] at h2
  exact h2.imp (fun h => h)

/-- C5: every record produced by `build_power_scores` under the pipeline's
weight dictionary has composite score
`record_weight·record_rank + 1.0·overall_rank + consistency term
+ 1.0·ppg_rank + 1.2·ros_rank`, where the consistency term is
`1.0·consistency_rank` from week 3 on and `0` before, and
`record_weight = 1.2·current_week` before week 3 and `3` afterwards (the
2-decimal rounding is exact on these values); lower composite is better: the
final sorter orders records by composite score ascending. -/
theorem composite_score_formula (team_info : List (Nat × TeamInfo)) (stats : Stats)
    (cw : Nat) (l : List PowerScore)
    (h : build_power_scores team_info stats (pipelineWeights cw) cw = some l) :
    (∀ r ∈ l, ∃ (recr ovr pr rosr : Nat) (cv : ℚ),
      dlookup (rank_stat (team_info.map (fun p => (p.1, p.2.record_score)))) r.team_id
        = some recr ∧
      dlookup stats.overall_ranks r.team_id = some ovr ∧
      dlookup stats.ppg_ranks r.team_id = some pr ∧
      dlookup stats.ros_ranks r.team_id = some rosr ∧
      ((3 ≤ cw ∧ ∃ cr : Nat, dlookup stats.consistency_ranks r.team_id = some cr ∧
        cv = 1.0 * (cr : ℚ)) ∨ (cw < 3 ∧ cv = 0)) ∧
      r.pr_score = record_weight cw * (recr : ℚ) + 1.0 * (ovr : ℚ) + cv
        + 1.0 * (pr : ℚ) + 1.2 * (rosr : ℚ) ∧
      record_weight cw = (if cw < 3 then 1.2 * (cw : ℚ) else 3)) ∧
    (∀ ps : List PowerScore,
      (rank_teams_by_score ps).Pairwise (fun a b => a.pr_score ≤ b.pr_score)) := by
  refine ⟨?_, rank_teams_by_score_sorted⟩
  intro r hr
  rw [build_power_scores] at h
  obtain ⟨p, _, hfp⟩ := traverseOption_mem _ team_info l h r hr
  obtain ⟨hteam, _, recr, ovr, pr, rosr, cv, e1, e2, e4, e5, hcase, hscore⟩ :=
    build_power_entry_some _ _ _ _ _ _ hfp
  rw [← hteam] at e1 e2 e4 e5
  have hwrec : (pipelineWeights cw).record = record_weight cw := rfl
  have hwone : (pipelineWeights cw).overall = 1.0 := rfl
  have hwppg : (pipelineWeights cw).ppg = 1.0 := rfl
  have hwros : (pipelineWeights cw).ros = 1.2 := rfl
  have hwcons : (pipelineWeights cw).consistency = 1.0 := rfl
  rcases hcase with ⟨hcw3, cr, hcr, hcveq⟩ | ⟨hcw3, hcveq⟩
  · rw [← hteam] at hcr
    refine ⟨recr, ovr, pr, rosr, cv, e1, e2, e4, e5,
      Or.inl ⟨hcw3, cr, hcr, by rw [hcveq, hwcons]; ring⟩, ?_, rfl⟩
    rw [hscore, hwrec, hwone, hwppg, hwros, hcveq, hwcons]
    have hrw : record_weight cw = 3 := by
      rw [record_weight, if_neg (by omega)]
    rw [hrw]
    have hfifth : (recr : ℚ) * 3 + (ovr : ℚ) * 1.0 + (cr : ℚ) * 1.0 + (pr : ℚ) * 1.0
        + (rosr : ℚ) * 1.2
        = ((15 * recr + 5 * ovr + 5 * cr + 5 * pr + 6 * rosr : ℤ) : ℚ) / 5 := by
      push_cast
      ring
    rw [hfifth, round2_fifth]
    push_cast
    ring
  · have hlt : cw < 3 := by omega
    refine ⟨recr, ovr, pr, rosr, cv, e1, e2, e4, e5, Or.inr ⟨hlt, hcveq⟩, ?_, rfl⟩
    rw [hscore, hwrec, hwone, hwppg, hwros, hcveq]
    have hrw : record_weight cw = 1.2 * (cw : ℚ) := by
      rw [record_weight, if_pos hlt]
    rw [hrw]
    have hfifth : (recr : ℚ) * (1.2 * (cw : ℚ)) + (ovr : ℚ) * 1.0 + 0 + (pr : ℚ) * 1.0
        + (rosr : ℚ) * 1.2
        = ((6 * cw * recr + 5 * ovr + 5 * pr + 6 * rosr : ℤ) : ℚ) / 5 := by
      push_cast
      ring
    rw [hfifth, round2_fifth]
    push_cast
    ring

/-- C10: in every record built by `build_power_scores`, the `consistency`
field holds the lookup into the consistency *rank* map for that team (so it
is `none` exactly when the team is absent from that map), and every rank
`rank_stat` produces is a positive integer (1 = best). -/
theorem consistency_field_is_rank (team_info : List (Nat × TeamInfo)) (stats : Stats)
    (weights : Weights) (cw : Nat) (l : List PowerScore)
    (h : build_power_scores team_info stats weights cw = some l) :
    (∀ r ∈ l, r.consistency = dlookup stats.consistency_ranks r.team_id ∧
      (r.consistency = none ↔ r.team_id ∉ stats.consistency_ranks.map Prod.fst)) ∧
    (∀ (m : List (Nat × ℚ)) (tid rk : Nat), dlookup (rank_stat m) tid = some rk →
      1 ≤ rk) := by
  constructor
  · intro r hr
    rw [build_power_scores] at h
    obtain ⟨p, _, hfp⟩ := traverseOption_mem _ team_info l h r hr
    obtain ⟨hteam, hcons, _⟩ := build_power_entry_some _ _ _ _ _ _ hfp
    rw [← hteam] at hcons
    exact ⟨hcons, by rw [hcons, dlookup_eq_none_iff]⟩
  · intro m tid rk hrk
    have hmem := dlookup_some_mem hrk
    rw [rank_stat_eq] at hmem
    obtain ⟨x, _, hx⟩ := List.mem_map.mp hmem
    have hrk' : rk = 1 + countGreater m x.2 := by
      have h2 := congrArg Prod.snd hx
      simpa using h2.symm
    omega

/-- C10 witness: a concrete build where the consistency rank map is empty, so
the field is `None`; and a concrete rank map whose rank is positive. -/
theorem consistency_field_is_rank_witness :
    ((⟨2, "B", "0-1-0", "1-1", none, 90, 50, 22 / 5, 0, ""⟩ : PowerScore).consistency
      = dlookup ([] : List (Nat × Nat)) 2) ∧
    (1 : Nat) ≤ 1 :=
  ⟨((consistency_field_is_rank [(2, ⟨"B", "0-1-0", 0, 1⟩)]
      ⟨[(2, 90)], [(2, 1)], [], [], [(2, 1)], [(2, 1)], [(2, 1)], [(2, 50)], [(2, 1)]⟩
      (pipelineWeights 1) 1 [⟨2, "B", "0-1-0", "1-1", none, 90, 50, 22 / 5, 0, ""⟩]
      (by with_unfolding_all rfl)).1
      ⟨2, "B", "0-1-0", "1-1", none, 90, 50, 22 / 5, 0, ""⟩
      (List.mem_singleton_self _)).1,
   (consistency_field_is_rank [(2, ⟨"B", "0-1-0", 0, 1⟩)]
      ⟨[(2, 90)], [(2, 1)], [], [], [(2, 1)], [(2, 1)], [(2, 1)], [(2, 50)], [(2, 1)]⟩
      (pipelineWeights 1) 1 [⟨2, "B", "0-1-0", "1-1", none, 90, 50, 22 / 5, 0, ""⟩]
      (by with_unfolding_all rfl)).2 [(5, (10 : ℚ))] 5 1 (by with_unfolding_all rfl)⟩

/-- C5 witness: the composite formula instantiated on a one-team build at
week 1: the stored score `22/5` is `1.2·1 + 1·1 + 0 + 1·1 + 1.2·1`. -/
theorem composite_score_formula_witness :
    ∃ (recr ovr pr rosr : Nat) (cv : ℚ),
      dlookup (rank_stat ([(1, (⟨"A", "1-0-0", 1, 1⟩ : TeamInfo))].map
        (fun p => (p.1, p.2.record_score)))) 1 = some recr ∧
      dlookup [(1, 1)] 1 = some ovr ∧
      dlookup [(1, 1)] 1 = some pr ∧
      dlookup [(1, 1)] 1 = some rosr ∧
      ((3 ≤ 1 ∧ ∃ cr : Nat, dlookup [(1, 1)] 1 = some cr ∧ cv = 1.0 * (cr : ℚ)) ∨
        (1 < 3 ∧ cv = 0)) ∧
      (22 / 5 : ℚ) = record_weight 1 * (recr : ℚ) + 1.0 * (ovr : ℚ) + cv
        + 1.0 * (pr : ℚ) + 1.2 * (rosr : ℚ) ∧
      record_weight 1 = (if 1 < 3 then 1.2 * ((1 : Nat) : ℚ) else 3) :=
  (composite_score_formula [(1, ⟨"A", "1-0-0", 1, 1⟩)]
    ⟨[(1, 100)], [(1, 1)], [(1, 0)], [(1, 1)], [(1, 2)], [(1, 0)], [(1, 1)], [(1, 50)], [(1, 1)]⟩
    1 [⟨1, "A", "1-0-0", "2-0", some 1, 100, 50, 22 / 5, 0, ""⟩]
    (by with_unfolding_all rfl)).1
    ⟨1, "A", "1-0-0", "2-0", some 1, 100, 50, 22 / 5, 0, ""⟩ (List.mem_singleton_self _)

/-- C9 witness: the final sorter on two records with scores 7 and 3 puts the
score-3 record first with `power_rank = 1`. -/
theorem rank_teams_by_score_spec_witness :
    (⟨2, "b", "", "", none, 0, 0, 3, 1, changePlaceholder⟩ : PowerScore).power_rank
      = 0 + 1 :=
  (rank_teams_by_score_spec
    [⟨1, "a", "", "", none, 0, 0, 7, 0, ""⟩, ⟨2, "b", "", "", none, 0, 0, 3, 0, ""⟩]).2.1
    0 ⟨2, "b", "", "", none, 0, 0, 3, 1, changePlaceholder⟩ (by with_unfolding_all rfl)

/-- C6 witness: competition ranking on `{1 ↦ 10, 2 ↦ 10, 3 ↦ 7}`: team 2's
rank is `1 +` the number of entries strictly above 10. -/
theorem rank_stat_competition_ranking_witness :
    dlookup (rank_stat [(1, (10 : ℚ)), (2, 10), (3, 7)]) 2
      = some (1 + countGreater [(1, (10 : ℚ)), (2, 10), (3, 7)] 10) :=
  (rank_stat_competition_ranking [(1, (10 : ℚ)), (2, 10), (3, 7)] (by decide)).1 2 10
    (by with_unfolding_all rfl)

/-- C8 witness: the record-score facts for a single 2-1-1 team. -/
theorem record_score_spec_witness :
    ∃ team ∈ [(⟨7, "W", ⟨2, 1, 1⟩⟩ : Team)], team.id = 7 ∧
      (team_info_entry ⟨7, "W", ⟨2, 1, 1⟩⟩).games_played
        = team.record.wins + team.record.losses + team.record.ties ∧
      ((team_info_entry ⟨7, "W", ⟨2, 1, 1⟩⟩).games_played = 0 →
        (team_info_entry ⟨7, "W", ⟨2, 1, 1⟩⟩).record_score = 0) ∧
      ((team_info_entry ⟨7, "W", ⟨2, 1, 1⟩⟩).games_played ≠ 0 →
        (team_info_entry ⟨7, "W", ⟨2, 1, 1⟩⟩).record_score =
          ((team.record.wins : ℚ) + 0.5 * (team.record.ties : ℚ))
            / ((team_info_entry ⟨7, "W", ⟨2, 1, 1⟩⟩).games_played : ℚ)) ∧
      0 ≤ (team_info_entry ⟨7, "W", ⟨2, 1, 1⟩⟩).record_score ∧
      (team_info_entry ⟨7, "W", ⟨2, 1, 1⟩⟩).record_score ≤ 1 :=
  record_score_spec [⟨7, "W", ⟨2, 1, 1⟩⟩] 7 (team_info_entry ⟨7, "W", ⟨2, 1, 1⟩⟩)
    (by with_unfolding_all rfl)

/-- C3 counterexample: on the spec's end-to-end example (3 teams, one decided
week, 100 vs 90, team 3 without a matchup entry) the engine does not return a
ranking at all — team 3 is absent from the rank maps, so `build_power_scores`
raises `KeyError` (`none` here) — and the all-play record it computes for
team 1 before failing is 2 wins (`num_teams - 1`), not the claimed 1. -/
theorem end_to_end_example_counterexample :
    calculate_power_rankings (fun _ => 0)
      ⟨[⟨1, "A", ⟨1, 0, 0⟩⟩, ⟨2, "B", ⟨0, 1, 0⟩⟩, ⟨3, "C", ⟨0, 0, 0⟩⟩],
       [⟨1, some "HOME", some ⟨1, 100⟩, some ⟨2, 90⟩⟩]⟩ = none ∧
    dlookup (calculate_overall_wins_and_losses
      [⟨1, some "HOME", some ⟨1, 100⟩, some ⟨2, 90⟩⟩] 3).1 1 = some 2 ∧
    (2 : Int) ≠ 1 := by
  refine ⟨by with_unfolding_all rfl, by with_unfolding_all rfl, by decide⟩

/-- C3 (amended): on the spec's example, PPG is 100 and 90 as claimed; the
all-play records are 2-0 for team 1 and 1-1 for team 2 (positions scale with
the league size 3, not the 2 teams scoring); the full 3-team engine run fails
on team 3; and building the composite for the two teams that did score — with
the stats exactly as the pipeline computes them (`num_teams = 3`, week-1
weights: record weight `1.2`, consistency zeroed) and default ROS 50 — places
team 1 ahead of team 2 in the final ranking. -/
theorem end_to_end_example_amended :
    (calculate_ppg (calculate_team_scores
      [⟨1, some "HOME", some ⟨1, 100⟩, some ⟨2, 90⟩⟩])).1 = [(1, 100), (2, 90)] ∧
    (calculate_overall_wins_and_losses
      [⟨1, some "HOME", some ⟨1, 100⟩, some ⟨2, 90⟩⟩] 3).1 = [(1, 2), (2, 1)] ∧
    (calculate_overall_wins_and_losses
      [⟨1, some "HOME", some ⟨1, 100⟩, some ⟨2, 90⟩⟩] 3).2.1 = [(1, 0), (2, 1)] ∧
    record_weight 1 = 1.2 ∧
    ((build_power_scores (get_team_info [⟨1, "A", ⟨1, 0, 0⟩⟩, ⟨2, "B", ⟨0, 1, 0⟩⟩])
        { ppg := (calculate_ppg (calculate_team_scores
            [⟨1, some "HOME", some ⟨1, 100⟩, some ⟨2, 90⟩⟩])).1
          ppg_ranks := (calculate_ppg (calculate_team_scores
            [⟨1, some "HOME", some ⟨1, 100⟩, some ⟨2, 90⟩⟩])).2
          consistency_scores := ((calculate_consistency (fun _ => 0)
            (calculate_ppg (calculate_team_scores
              [⟨1, some "HOME", some ⟨1, 100⟩, some ⟨2, 90⟩⟩])).1
            (calculate_team_scores
              [⟨1, some "HOME", some ⟨1, 100⟩, some ⟨2, 90⟩⟩])).getD ([], [])).1
          consistency_ranks := ((calculate_consistency (fun _ => 0)
            (calculate_ppg (calculate_team_scores
              [⟨1, some "HOME", some ⟨1, 100⟩, some ⟨2, 90⟩⟩])).1
            (calculate_team_scores
              [⟨1, some "HOME", some ⟨1, 100⟩, some ⟨2, 90⟩⟩])).getD ([], [])).2
          overall_wins := (calculate_overall_wins_and_losses
            [⟨1, some "HOME", some ⟨1, 100⟩, some ⟨2, 90⟩⟩] 3).1
          overall_losses := (calculate_overall_wins_and_losses
            [⟨1, some "HOME", some ⟨1, 100⟩, some ⟨2, 90⟩⟩] 3).2.1
          overall_ranks := (calculate_overall_wins_and_losses
            [⟨1, some "HOME", some ⟨1, 100⟩, some ⟨2, 90⟩⟩] 3).2.2
          ros_strength := [(1, 50), (2, 50)]
          ros_ranks := rank_stat [(1, (50 : ℚ)), (2, 50)] }
        (pipelineWeights 1) 1).map
      (fun built => (rank_teams_by_score built).map (fun r => (r.team_id, r.power_rank)))
      = some [(1, 1), (2, 2)]) := by
  refine ⟨by with_unfolding_all rfl, by with_unfolding_all rfl, by with_unfolding_all rfl,
    by with_unfolding_all rfl, by with_unfolding_all rfl⟩

theorem dlookup_map_pair {γ β : Type} (vf : Nat × γ → β) :
    ∀ (l : List (Nat × γ)) (tid : Nat) (w : γ), dlookup l tid = some w →
      dlookup (l.map (fun p => (p.1, vf p))) tid = some (vf (tid, w)) := by
  intro l
  induction l with
  | nil => intro tid w h; exact absurd h (by simp [dlookup])
  | cons p rest ih =>
    intro tid w h
    obtain ⟨k', v⟩ := p
    by_cases hk : k' = tid
    · subst hk
      rw [dlookup, if_pos rfl] at h
      obtain rfl := Option.some.inj h
      rw [List.map_cons, dlookup, if_pos rfl]
    · rw [dlookup, if_neg hk] at h
      rw [List.map_cons, dlookup, if_neg hk]
      exact ih tid w h

/-- C7: each value produced by the consistency computation (with the exact
real-valued sample standard deviation) equals
`(ppg - 3·stdev) / (0.75·league_avg_ppg)`, where `stdev` is the sample
standard deviation of that team's score history (0 when the history has fewer
than 2 entries) and `league_avg_ppg` is the unweighted mean of all teams'
PPG; when the league average is 0 the value is 0 instead of a division by
zero.  The `sampleStdev` used is genuinely the sample standard deviation: it
is non-negative and squares to the sample variance. -/
theorem consistency_formula (team_ppg : List (Nat × ℚ))
    (team_scores : List (Nat × List ℚ)) (cmap : List (Nat × ℝ)) (tid : Nat)
    (ppgv : ℚ) (scoresl : List ℚ)
    (hc : calculate_consistency_scoresR team_ppg team_scores = some cmap)
    (hp : dlookup team_ppg tid = some ppgv)
    (hs : dlookup team_scores tid = some scoresl) :
    dlookup cmap tid = some (
      if league_avg_ppg team_ppg = 0 then 0
      else (((ppgv : ℚ) : ℝ)
          - 3 * (if scoresl.length < 2 then 0 else sampleStdev scoresl))
        / (0.75 * (((league_avg_ppg team_ppg : ℚ)) : ℝ))) ∧
    (2 ≤ scoresl.length →
      0 ≤ sampleStdev scoresl ∧
      sampleStdev scoresl ^ 2 = ((sampleVariance scoresl : ℚ) : ℝ)) := by
  constructor
  · have hg : ∀ a r, consistency_entryR (team_stdev_mapR team_scores)
        (league_avg_ppg team_ppg) a = some r →
        r = (a.1, if league_avg_ppg team_ppg = 0 then (0 : ℝ)
          else (((a.2 : ℚ) : ℝ)
              - 3 * ((dlookup (team_stdev_mapR team_scores) a.1).getD 0))
            / (0.75 * (((league_avg_ppg team_ppg : ℚ)) : ℝ))) := by
      intro a r hr
      rw [consistency_entryR] at hr
      by_cases h0 : league_avg_ppg team_ppg = 0
      · rw [if_pos h0] at hr
        rw [if_pos h0]
        exact (Option.some.inj hr).symm
      · rw [if_neg h0] at hr
        rw [if_neg h0]
        obtain ⟨sd, hsd, hrr⟩ := Option.map_eq_some'.mp hr
        rw [← hrr, hsd]
        rfl
    have hshape := traverseOption_map_shape _ _ hg team_ppg cmap hc
    subst hshape
    have hlook := dlookup_map_pair
      (fun p : Nat × ℚ => if league_avg_ppg team_ppg = 0 then (0 : ℝ)
        else (((p.2 : ℚ) : ℝ)
            - 3 * ((dlookup (team_stdev_mapR team_scores) p.1).getD 0))
          / (0.75 * (((league_avg_ppg team_ppg : ℚ)) : ℝ)))
      team_ppg tid ppgv hp
    rw [hlook]
    have hsd : dlookup (team_stdev_mapR team_scores) tid
        = some (if 1 < scoresl.length then sampleStdev scoresl else 0) := by
      rw [team_stdev_mapR]
      exact dlookup_map_pair
        (fun p : Nat × List ℚ => if 1 < p.2.length then sampleStdev p.2 else (0 : ℝ))
        team_scores tid scoresl hs
    have hflip : (if 1 < scoresl.length then sampleStdev scoresl else (0 : ℝ))
        = (if scoresl.length < 2 then (0 : ℝ) else sampleStdev scoresl) := by
      by_cases hl : 1 < scoresl.length
      · rw [if_pos hl, if_neg (by omega)]
      · rw [if_neg hl, if_pos (by omega)]
    simp only [hsd, Option.getD_some, hflip]
  · intro hlen
    have hvar : (0 : ℚ) ≤ sampleVariance scoresl := by
      rw [sampleVariance]
      apply div_nonneg
      · apply List.sum_nonneg
        intro x hx
        obtain ⟨y, _, hy⟩ := List.mem_map.mp hx
        rw [← hy]
        exact sq_nonneg _
      · have : (2 : ℚ) ≤ (scoresl.length : ℚ) := by exact_mod_cast hlen
        linarith
    have hvar' : (0 : ℝ) ≤ ((sampleVariance scoresl : ℚ) : ℝ) := by
      exact_mod_cast hvar
    exact ⟨Real.sqrt_nonneg _, Real.sq_sqrt hvar'⟩

/-- C7 witness: one team with PPG 0 and an empty history; the league average
is 0, so the consistency value is 0 rather than a division by zero. -/
theorem consistency_formula_witness :
    dlookup [(1, (0 : ℝ))] 1 = some (
      if league_avg_ppg [(1, (0 : ℚ))] = 0 then 0
      else ((((0 : ℚ)) : ℝ)
          - 3 * (if ([] : List ℚ).length < 2 then 0 else sampleStdev []))
        / (0.75 * (((league_avg_ppg [(1, (0 : ℚ))] : ℚ)) : ℝ))) ∧
    (2 ≤ ([] : List ℚ).length →
      0 ≤ sampleStdev [] ∧
      sampleStdev ([] : List ℚ) ^ 2 = ((sampleVariance ([] : List ℚ) : ℚ) : ℝ)) :=
  consistency_formula [(1, 0)] [(1, [])] [(1, 0)] 1 0 []
    (by with_unfolding_all rfl) (by with_unfolding_all rfl) (by with_unfolding_all rfl)

theorem mem_keys_cts_fold (tid : Nat) :
    ∀ (s : List Matchup) (acc : List (Nat × List ℚ)),
      (tid ∈ ((s.foldl (fun acc m =>
        match m.home, m.away with
        | some h, some a =>
          dappend (dappend acc h.teamId h.totalPoints) a.teamId a.totalPoints
        | _, _ => acc) acc).map Prod.fst)
      ↔ tid ∈ acc.map Prod.fst ∨ s.any (scoresInMatchup tid) = true) := by
  intro s
  induction s with
  | nil => intro acc; simp
  | cons m s ih =>
    intro acc
    rw [List.foldl_cons, List.any_cons, ih]
    rcases hh : m.home with _ | h' <;> rcases ha : m.away with _ | a' <;>
      simp only [hh, ha, scoresInMatchup]
    · simp
    · simp
    · simp
    · rw [mem_keys_dappend, mem_keys_dappend]
      simp only [Bool.or_eq_true, decide_eq_true_eq]
      tauto

theorem mem_keys_calculate_team_scores (s : List Matchup) (tid : Nat) :
    tid ∈ (calculate_team_scores s).map Prod.fst ↔ scoresIn tid s = true := by
  rw [calculate_team_scores, mem_keys_cts_fold, scoresIn]
  simp

theorem wmHas_dappend (tid : Nat) (k : Nat) (x : Nat × ℚ) :
    ∀ (acc : List (Nat × List (Nat × ℚ))),
      (∃ wk ∈ dappend acc k x, ∃ pts, (tid, pts) ∈ wk.2) ↔
        (∃ wk ∈ acc, ∃ pts, (tid, pts) ∈ wk.2) ∨ x.1 = tid := by
  intro acc
  induction acc with
  | nil =>
    rw [dappend]
    constructor
    · rintro ⟨wk, hwk, pts, hpts⟩
      rw [List.mem_singleton.mp hwk] at hpts
      exact Or.inr (congrArg Prod.fst (List.mem_singleton.mp hpts)).symm
    · rintro (⟨wk, hwk, _⟩ | hx)
      · exact absurd hwk (List.not_mem_nil wk)
      · exact ⟨(k, [x]), List.mem_singleton_self _, x.2,
          by rw [← hx]; exact List.mem_singleton_self _⟩
  | cons p rest ih =>
    obtain ⟨k', l'⟩ := p
    by_cases hk : k' = k
    · subst hk
      rw [dappend, if_pos rfl]
      constructor
      · rintro ⟨wk, hwk, pts, hpts⟩
        rcases List.mem_cons.mp hwk with rfl | hwk0
        · rcases List.mem_append.mp hpts with h0 | h0
          · exact Or.inl ⟨(k', l'), List.mem_cons_self _ _, pts, h0⟩
          · exact Or.inr (congrArg Prod.fst (List.mem_singleton.mp h0)).symm
        · exact Or.inl ⟨wk, List.mem_cons_of_mem _ hwk0, pts, hpts⟩
      · rintro (⟨wk, hwk, pts, hpts⟩ | hx)
        · rcases List.mem_cons.mp hwk with rfl | hwk0
          · exact ⟨(k', l' ++ [x]), List.mem_cons_self _ _, pts,
              List.mem_append.mpr (Or.inl hpts)⟩
          · exact ⟨wk, List.mem_cons_of_mem _ hwk0, pts, hpts⟩
        · exact ⟨(k', l' ++ [x]), List.mem_cons_self _ _, x.2,
            List.mem_append.mpr (Or.inr (by rw [← hx]; exact List.mem_singleton_self _))⟩
    · rw [dappend, if_neg hk]
      constructor
      · rintro ⟨wk, hwk, pts, hpts⟩
        rcases List.mem_cons.mp hwk with rfl | hwk0
        · exact Or.inl ⟨(k', l'), List.mem_cons_self _ _, pts, hpts⟩
        · rcases ih.mp ⟨wk, hwk0, pts, hpts⟩ with ⟨wk', hwk', pts', hpts'⟩ | hx
          · exact Or.inl ⟨wk', List.mem_cons_of_mem _ hwk', pts', hpts'⟩
          · exact Or.inr hx
      · rintro (⟨wk, hwk, pts, hpts⟩ | hx)
        · rcases List.mem_cons.mp hwk with rfl | hwk0
          · exact ⟨(k', l'), List.mem_cons_self _ _, pts, hpts⟩
          · obtain ⟨wk', hwk', pts', hpts'⟩ := ih.mpr (Or.inl ⟨wk, hwk0, pts, hpts⟩)
            exact ⟨wk', List.mem_cons_of_mem _ hwk', pts', hpts'⟩
        · obtain ⟨wk', hwk', pts', hpts'⟩ := ih.mpr (Or.inr hx)
          exact ⟨wk', List.mem_cons_of_mem _ hwk', pts', hpts'⟩

theorem wmHas_weeklyMatchups_fold (tid : Nat) :
    ∀ (s : List Matchup) (acc : List (Nat × List (Nat × ℚ))),
      (∃ wk ∈ (s.foldl (fun acc m =>
        match m.home, m.away with
        | some h, some a =>
          dappend (dappend acc m.matchupPeriodId (h.teamId, h.totalPoints))
            m.matchupPeriodId (a.teamId, a.totalPoints)
        | _, _ => acc) acc), ∃ pts, (tid, pts) ∈ wk.2)
      ↔ (∃ wk ∈ acc, ∃ pts, (tid, pts) ∈ wk.2) ∨ s.any (scoresInMatchup tid) = true := by
  intro s
  induction s with
  | nil => intro acc; simp
  | cons m s ih =>
    intro acc
    rw [List.foldl_cons, List.any_cons, ih]
    rcases hh : m.home with _ | h' <;> rcases ha : m.away with _ | a' <;>
      simp only [hh, ha, scoresInMatchup]
    · simp
    · simp
    · simp
    · rw [wmHas_dappend, wmHas_dappend]
      simp only [Bool.or_eq_true, decide_eq_true_eq]
      constructor
      · rintro (((h | h) | h) | h)
        · exact Or.inl h
        · exact Or.inr (Or.inl (Or.inl h.symm))
        · exact Or.inr (Or.inl (Or.inr h.symm))
        · exact Or.inr (Or.inr h)
      · rintro (h | ((h | h) | h))
        · exact Or.inl (Or.inl (Or.inl h))
        · exact Or.inl (Or.inl (Or.inr h.symm))
        · exact Or.inl (Or.inr h.symm)
        · exact Or.inr h

theorem mem_keys_weekAssignments (n : Nat) (l : List (Nat × ℚ)) (tid : Nat) :
    tid ∈ (weekAssignments n l).map Prod.fst ↔ ∃ pts, (tid, pts) ∈ l := by
  rw [weekAssignments, List.map_map]
  have h1 : (Prod.fst ∘ fun p : Nat × (Nat × ℚ) =>
      (p.2.1, ((n : Int) - 1 - (p.1 : Int), (p.1 : Int))))
      = (Prod.fst ∘ Prod.snd : Nat × (Nat × ℚ) → Nat) := rfl
  rw [h1]
  have h2 : ((sortByVal true l).enum.map (Prod.fst ∘ Prod.snd : Nat × (Nat × ℚ) → Nat))
      = ((sortByVal true l).enum.map Prod.snd).map Prod.fst := by
    rw [List.map_map]
  rw [h2, List.enum_map_snd]
  rw [((sortByVal_perm true l).map Prod.fst).mem_iff]
  constructor
  · intro h
    obtain ⟨x, hx, hx1⟩ := List.mem_map.mp h
    exact ⟨x.2, by rw [← hx1]; exact hx⟩
  · rintro ⟨pts, hpts⟩
    exact List.mem_map.mpr ⟨(tid, pts), hpts, rfl⟩

theorem mem_keys_dadd_fold (tid : Nat) :
    ∀ (assigns : List (Nat × Int × Int)) (acc : List (Nat × Int) × List (Nat × Int)),
      tid ∈ ((assigns.foldl
        (fun a asg => (dadd a.1 asg.1 asg.2.1, dadd a.2 asg.1 asg.2.2)) acc).1).map Prod.fst
      ↔ tid ∈ acc.1.map Prod.fst ∨ tid ∈ assigns.map Prod.fst := by
  intro assigns
  induction assigns with
  | nil => intro acc; simp
  | cons asg assigns ih =>
    intro acc
    rw [List.foldl_cons, ih, List.map_cons]
    rw [mem_keys_dadd]
    simp only [List.mem_cons]
    tauto

theorem mem_keys_owl_fold (n tid : Nat) :
    ∀ (weekly : List (Nat × List (Nat × ℚ))) (acc : List (Nat × Int) × List (Nat × Int)),
      tid ∈ ((weekly.foldl (fun acc wk => (weekAssignments n wk.2).foldl
        (fun a asg => (dadd a.1 asg.1 asg.2.1, dadd a.2 asg.1 asg.2.2)) acc) acc).1).map Prod.fst
      ↔ tid ∈ acc.1.map Prod.fst ∨ ∃ wk ∈ weekly, ∃ pts, (tid, pts) ∈ wk.2 := by
  intro weekly
  induction weekly with
  | nil => intro acc; simp
  | cons wk weekly ih =>
    intro acc
    rw [List.foldl_cons, ih, mem_keys_dadd_fold, mem_keys_weekAssignments]
    constructor
    · rintro ((h | ⟨pts, hpts⟩) | ⟨wk', hwk', pts', hpts'⟩)
      · exact Or.inl h
      · exact Or.inr ⟨wk, List.mem_cons_self _ _, pts, hpts⟩
      · exact Or.inr ⟨wk', List.mem_cons_of_mem _ hwk', pts', hpts'⟩
    · rintro (h | ⟨wk', hwk', pts', hpts'⟩)
      · exact Or.inl (Or.inl h)
      · rcases List.mem_cons.mp hwk' with rfl | hwk0
        · exact Or.inl (Or.inr ⟨pts', hpts'⟩)
        · exact Or.inr ⟨wk', hwk0, pts', hpts'⟩

theorem mem_keys_overall_wins (s : List Matchup) (n : Nat) (tid : Nat) :
    tid ∈ ((calculate_overall_wins_and_losses s n).1).map Prod.fst
      ↔ scoresIn tid s = true := by
  rw [calculate_overall_wins_and_losses]
  simp only []
  rw [mem_keys_owl_fold]
  have hw := wmHas_weeklyMatchups_fold tid s []
  rw [weeklyMatchups]
  constructor
  · rintro (h | h)
    · exact absurd h (by simp)
    · have := hw.mp h
      rcases this with ⟨wk, hwk, _⟩ | h2
      · exact absurd hwk (List.not_mem_nil wk)
      · rw [scoresIn]; exact h2
  · intro h
    rw [scoresIn] at h
    exact Or.inr (hw.mpr (Or.inr h))

theorem mem_keys_team_info_fold (tid : Nat) :
    ∀ (teams : List Team) (acc : List (Nat × TeamInfo)),
      tid ∈ ((teams.foldl (fun acc team => dset acc team.id (team_info_entry team)) acc).map
        Prod.fst)
      ↔ tid ∈ acc.map Prod.fst ∨ ∃ t ∈ teams, t.id = tid := by
  intro teams
  induction teams with
  | nil => intro acc; simp
  | cons team teams ih =>
    intro acc
    rw [List.foldl_cons, ih, mem_keys_dset]
    constructor
    · rintro ((h | h) | ⟨t, ht, hid⟩)
      · exact Or.inr ⟨team, List.mem_cons_self _ _, h.symm⟩
      · exact Or.inl h
      · exact Or.inr ⟨t, List.mem_cons_of_mem _ ht, hid⟩
    · rintro (h | ⟨t, ht, hid⟩)
      · exact Or.inl (Or.inr h)
      · rcases List.mem_cons.mp ht with rfl | ht0
        · exact Or.inl (Or.inl hid.symm)
        · exact Or.inr ⟨t, ht0, hid⟩

theorem mem_keys_get_team_info (teams : List Team) (tid : Nat) :
    tid ∈ (get_team_info teams).map Prod.fst ↔ ∃ t ∈ teams, t.id = tid := by
  rw [get_team_info, mem_keys_team_info_fold]
  simp

theorem mem_keys_ros_fold (tid : Nat) :
    ∀ (teams : List Team) (acc : List (Nat × ℚ)),
      tid ∈ ((teams.foldl (fun acc t => dset acc t.id 50) acc).map Prod.fst)
      ↔ tid ∈ acc.map Prod.fst ∨ ∃ t ∈ teams, t.id = tid := by
  intro teams
  induction teams with
  | nil => intro acc; simp
  | cons team teams ih =>
    intro acc
    rw [List.foldl_cons, ih, mem_keys_dset]
    constructor
    · rintro ((h | h) | ⟨t, ht, hid⟩)
      · exact Or.inr ⟨team, List.mem_cons_self _ _, h.symm⟩
      · exact Or.inl h
      · exact Or.inr ⟨t, List.mem_cons_of_mem _ ht, hid⟩
    · rintro (h | ⟨t, ht, hid⟩)
      · exact Or.inl (Or.inr h)
      · rcases List.mem_cons.mp ht with rfl | ht0
        · exact Or.inl (Or.inl hid.symm)
        · exact Or.inr ⟨t, ht0, hid⟩

theorem mem_keys_default_ros (teams : List Team) (tid : Nat) :
    tid ∈ (default_ros teams).map Prod.fst ↔ ∃ t ∈ teams, t.id = tid := by
  rw [default_ros, mem_keys_ros_fold]
  simp

theorem calculate_consistency_some (stdevFn : List ℚ → ℚ)
    (team_scores : List (Nat × List ℚ)) :
    ∃ cst, calculate_consistency stdevFn (calculate_ppg team_scores).1 team_scores
        = some cst ∧
      ∀ tid, tid ∈ cst.2.map Prod.fst ↔ tid ∈ team_scores.map Prod.fst := by
  have hkeys_ppg : ((calculate_ppg team_scores).1).map Prod.fst
      = team_scores.map Prod.fst := by
    rw [calculate_ppg]
    exact keys_map_val _ _
  have hkeys_sd : (team_stdev_map stdevFn team_scores).map Prod.fst
      = team_scores.map Prod.fst := by
    rw [team_stdev_map]
    exact keys_map_val _ _
  have hall : ∀ p ∈ (calculate_ppg team_scores).1,
      ((consistency_entry (team_stdev_map stdevFn team_scores)
        (league_avg_ppg (calculate_ppg team_scores).1)) p).isSome := by
    intro p hp
    rw [consistency_entry]
    by_cases h0 : league_avg_ppg (calculate_ppg team_scores).1 = 0
    · rw [if_pos h0]; rfl
    · rw [if_neg h0]
      have hp1 : p.1 ∈ (team_stdev_map stdevFn team_scores).map Prod.fst := by
        rw [hkeys_sd, ← hkeys_ppg]
        exact List.mem_map_of_mem Prod.fst hp
      obtain ⟨sd, hsd⟩ := Option.isSome_iff_exists.mp ((dlookup_isSome_iff _ _).mpr hp1)
      rw [hsd]
      rfl
  obtain ⟨scores, hscores, _⟩ := traverseOption_isSome _ _ hall
  refine ⟨(scores, rank_stat scores), ?_, ?_⟩
  · rw [calculate_consistency, hscores]
  · intro tid
    have hg : ∀ (a : Nat × ℚ) (r : Nat × ℚ),
        consistency_entry (team_stdev_map stdevFn team_scores)
          (league_avg_ppg (calculate_ppg team_scores).1) a = some r →
        r = (a.1, if league_avg_ppg (calculate_ppg team_scores).1 = 0 then (0 : ℚ)
          else (a.2 - 3 * ((dlookup (team_stdev_map stdevFn team_scores) a.1).getD 0))
            / (0.75 * league_avg_ppg (calculate_ppg team_scores).1)) := by
      intro a r hr
      rw [consistency_entry] at hr
      by_cases h0 : league_avg_ppg (calculate_ppg team_scores).1 = 0
      · rw [if_pos h0] at hr
        rw [if_pos h0]
        exact (Option.some.inj hr).symm
      · rw [if_neg h0] at hr
        rw [if_neg h0]
        obtain ⟨sd, hsd, hrr⟩ := Option.map_eq_some'.mp hr
        rw [← hrr, hsd]
        rfl
    have hshape := traverseOption_map_shape _ _ hg _ scores hscores
    have hkeys_scores : scores.map Prod.fst = team_scores.map Prod.fst := by
      rw [hshape, keys_map_val, hkeys_ppg]
    rw [mem_keys_rank_stat, hkeys_scores]

theorem mem_rank_teams_by_score (ps : List PowerScore) (r : PowerScore) (hr : r ∈ ps) :
    ∃ r' ∈ rank_teams_by_score ps, r'.team_id = r.team_id := by
  have hr' : r ∈ ps.insertionSort (fun a b => a.pr_score ≤ b.pr_score) :=
    (List.perm_insertionSort _ ps).mem_iff.mpr hr
  obtain ⟨n, hn⟩ := List.mem_iff_get?.mp hr'
  refine ⟨{ r with power_rank := n + 1, change := changePlaceholder }, ?_, rfl⟩
  rw [rank_teams_by_score]
  apply List.mem_map.mpr
  refine ⟨(n, r), ?_, rfl⟩
  have henum : (ps.insertionSort (fun a b => a.pr_score ≤ b.pr_score)).enum.get? n
      = some (n, r) := by
    rw [List.get?_eq_getElem?, List.getElem?_enum, ← List.get?_eq_getElem?, hn]
    rfl
  exact List.get?_mem henum

/-- C2 (amended): provided at least one matchup is decided and every team
appears in at least one scored matchup, `calculate_power_rankings` completes
without raising and every input team receives an output power-score record;
the early-season defaults (PPG 0 without scores, stdev 0 below 2 samples,
consistency 0 at league average 0, record score 0 without games) are then
exercised without raising.  A team with *no* scored matchup, by contrast, is
missing from the rank maps and the engine raises (`KeyError`) instead of
defaulting. -/
theorem engine_totality (stdevFn : List ℚ → ℚ) (data : LeagueData)
    (hdec : ∃ m ∈ data.schedule, decidedWinner m = true)
    (hsc : ∀ team ∈ data.teams, scoresIn team.id data.schedule = true) :
    ∃ l, calculate_power_rankings stdevFn data none none = some l ∧
      ∀ team ∈ data.teams, ∃ r ∈ l, r.team_id = team.id := by
  obtain ⟨w, hw⟩ : ∃ w, get_current_week data.schedule = some w := by
    rcases h : get_current_week data.schedule with _ | w
    · rw [get_current_week, listMax_eq_none_iff, List.map_eq_nil_iff,
        List.filter_eq_nil_iff] at h
      obtain ⟨m, hm, hd⟩ := hdec
      exact absurd hd (by simpa using h m hm)
    · exact ⟨w, rfl⟩
  obtain ⟨cst, hcst, hcstkeys⟩ :=
    calculate_consistency_some stdevFn (calculate_team_scores data.schedule)
  have hall : ∀ p ∈ get_team_info data.teams,
      (build_power_entry
        (rank_stat ((get_team_info data.teams).map (fun p => (p.1, p.2.record_score))))
        { ppg := (calculate_ppg (calculate_team_scores data.schedule)).1
          ppg_ranks := (calculate_ppg (calculate_team_scores data.schedule)).2
          consistency_scores := cst.1
          consistency_ranks := cst.2
          overall_wins :=
            (calculate_overall_wins_and_losses data.schedule data.teams.length).1
          overall_losses :=
            (calculate_overall_wins_and_losses data.schedule data.teams.length).2.1
          overall_ranks :=
            (calculate_overall_wins_and_losses data.schedule data.teams.length).2.2
          ros_strength := default_ros data.teams
          ros_ranks := rank_stat (default_ros data.teams) }
        (pipelineWeights w) w p).isSome := by
    intro p hp
    have hp1 : p.1 ∈ (get_team_info data.teams).map Prod.fst :=
      List.mem_map_of_mem Prod.fst hp
    obtain ⟨t, ht, htid⟩ := (mem_keys_get_team_info _ _).mp hp1
    have hscored : scoresIn p.1 data.schedule = true := by
      rw [← htid]; exact hsc t ht
    apply build_power_entry_isSome
    · rw [dlookup_isSome_iff, mem_keys_rank_stat, keys_map_val]
      exact hp1
    · show (dlookup (rank_stat
        ((calculate_overall_wins_and_losses data.schedule data.teams.length).1)) p.1).isSome
      rw [dlookup_isSome_iff, mem_keys_rank_stat, mem_keys_overall_wins]
      exact hscored
    · intro _
      show (dlookup cst.2 p.1).isSome
      rw [dlookup_isSome_iff, hcstkeys, mem_keys_calculate_team_scores]
      exact hscored
    · show (dlookup (rank_stat
        (calculate_ppg (calculate_team_scores data.schedule)).1) p.1).isSome
      rw [dlookup_isSome_iff, mem_keys_rank_stat]
      have : ((calculate_ppg (calculate_team_scores data.schedule)).1).map Prod.fst
          = (calculate_team_scores data.schedule).map Prod.fst := by
        rw [calculate_ppg]; exact keys_map_val _ _
      rw [this, mem_keys_calculate_team_scores]
      exact hscored
    · show (dlookup (rank_stat (default_ros data.teams)) p.1).isSome
      rw [dlookup_isSome_iff, mem_keys_rank_stat, mem_keys_default_ros]
      exact ⟨t, ht, htid⟩
  obtain ⟨ps, hps, hcover⟩ := traverseOption_isSome _ _ hall
  refine ⟨rank_teams_by_score ps, ?_, ?_⟩
  · simp only [calculate_power_rankings, hw, hcst]
    rw [build_power_scores]
    simp only [hps]
  · intro team hteam
    have hkey : team.id ∈ (get_team_info data.teams).map Prod.fst :=
      (mem_keys_get_team_info _ _).mpr ⟨team, hteam, rfl⟩
    obtain ⟨p, hp, hpid⟩ := List.mem_map.mp hkey
    obtain ⟨r, hrps, hr⟩ := hcover p hp
    obtain ⟨r', hr', hrid⟩ := mem_rank_teams_by_score ps r hrps
    refine ⟨r', hr', ?_⟩
    rw [hrid, (build_power_entry_some _ _ _ _ _ _ hr).1, hpid]

/-- C2 counterexample: team 3 has no scored matchup, so it is absent from the
PPG/overall rank maps; instead of defaulting its statistics to 0,
`build_power_scores` raises on the rank lookup and the whole engine fails,
returning no record for *any* team. -/
theorem defensive_defaults_counterexample :
    calculate_power_rankings (fun _ => 0)
      ⟨[⟨1, "X", ⟨1, 0, 0⟩⟩, ⟨2, "Y", ⟨0, 1, 0⟩⟩, ⟨3, "Z", ⟨0, 0, 0⟩⟩],
       [⟨1, some "HOME", some ⟨1, 80⟩, some ⟨2, 70⟩⟩]⟩ = none := by
  with_unfolding_all rfl

/-- C2 witness: a 2-team snapshot where both teams scored: the engine
completes and each team receives a record. -/
theorem engine_totality_witness :
    ∃ l, calculate_power_rankings (fun _ => 0)
        ⟨[⟨1, "X", ⟨1, 0, 0⟩⟩, ⟨2, "Y", ⟨0, 1, 0⟩⟩],
         [⟨1, some "HOME", some ⟨1, 80⟩, some ⟨2, 70⟩⟩]⟩ none none = some l ∧
      ∀ team ∈ [(⟨1, "X", ⟨1, 0, 0⟩⟩ : Team), ⟨2, "Y", ⟨0, 1, 0⟩⟩],
        ∃ r ∈ l, r.team_id = team.id :=
  engine_totality (fun _ => 0)
    ⟨[⟨1, "X", ⟨1, 0, 0⟩⟩, ⟨2, "Y", ⟨0, 1, 0⟩⟩],
     [⟨1, some "HOME", some ⟨1, 80⟩, some ⟨2, 70⟩⟩]⟩
    (by decide) (by decide)
